import Mathlib

/-
  Verification of the ontology reasoning layer
  (`src/services/ontology_service.py` of Startup-One-Wally-Clean).

  The generic graph store, the entity dataclasses and the error taxonomy live
  outside the provided sources; they are modelled from the specification's
  narrow-interface description (spec.md §2, §3, §6).  Every operation of the
  ontology service itself is translated directly from the Python source.

  Python values stored in node attribute maps are modelled by `Val`
  (strings, booleans and `None`); attribute maps are association lists in
  which the *first* binding of a key wins, which models a Python dict built
  as `{fixed keys}` followed by `.update(extra)` (the extra keys override,
  and only `get` is ever observed).  Machine floats (edge weights) never
  influence any modelled operation and are omitted.
-/

set_option maxRecDepth 20000

inductive Val where
  | vs : String → Val
  | vb : Bool → Val
  | vnull : Val
deriving DecidableEq, Repr

abbrev NodeData := List (String × Val)

/-- Python `dict.get(k)`: the first binding of `k` wins. -/
def dget (d : NodeData) (k : String) : Option Val :=
  (d.find? (fun p => decide (p.1 = k))).map (fun p => p.2)

/-- Python `d.get(k, dflt)` for string-valued entries. -/
def getStrD (v : Option Val) (dflt : String) : String :=
  match v with
  | some (Val.vs s) => s
  | _ => dflt

/-- Python `d.get(k)` as an optional string (missing key ↦ `None`). -/
def getStrOpt (v : Option Val) : Option String :=
  match v with
  | some (Val.vs s) => some s
  | _ => none

/-- Python `d.get(k, dflt)` for boolean-valued entries. -/
def getBoolD (v : Option Val) (dflt : Bool) : Bool :=
  match v with
  | some (Val.vb b) => b
  | _ => dflt

/-- Modelled from the spec: a directed labeled edge of the GraphStore,
    "edges keyed by (source, target) holding a label and numeric weight"
    (spec.md §2); the weight is never read by any modelled operation. -/
structure GEdge where
  src : String
  dst : String
  lbl : String
deriving DecidableEq, Repr

/-- Modelled from the spec: the external GraphStore (spec.md §2, §6) —
    nodes keyed by a globally unique string id holding an opaque attribute
    map, edges keyed by (source, target).  Enumeration follows insertion
    order. -/
structure GraphDB where
  nodes : List (String × NodeData)
  edges : List GEdge
deriving DecidableEq, Repr

/-- Modelled from the spec: GraphStore node-existence check. -/
def node_exists (g : GraphDB) (nid : String) : Bool :=
  g.nodes.any (fun n => decide (n.1 = nid))

/-- Modelled from the spec: GraphStore node creation (the service always
    guards with `node_exists` first, so this simply appends). -/
def add_node (g : GraphDB) (nid : String) (d : NodeData) : GraphDB :=
  { g with nodes := g.nodes ++ [(nid, d)] }

/-- Modelled from the spec: GraphStore node lookup. -/
def get_node (g : GraphDB) (nid : String) : Option NodeData :=
  (g.nodes.find? (fun n => decide (n.1 = nid))).map (fun n => n.2)

def edge_matches (e : GEdge) (f t : String) : Bool :=
  decide (e.src = f) && decide (e.dst = t)

/-- Modelled from the spec: GraphStore edge creation; edges are keyed by
    (source, target), so writing an existing key replaces the stored label
    in place. -/
def add_edge (g : GraphDB) (f t l : String) : GraphDB :=
  if g.edges.any (fun e => edge_matches e f t) then
    { g with edges := g.edges.map (fun e => if edge_matches e f t then ⟨f, t, l⟩ else e) }
  else
    { g with edges := g.edges ++ [⟨f, t, l⟩] }

/-- Modelled from the spec: GraphStore edge lookup (only the label is ever
    read from the result). -/
def get_edge (g : GraphDB) (f t : String) : Option GEdge :=
  g.edges.find? (fun e => edge_matches e f t)

-- Special node/edge labels for ontology elements (OntologyService constants).
def CLASS_TYPE : String := "owl:Class"
def PROPERTY_TYPE : String := "owl:Property"
def INSTANCE_TYPE : String := "owl:Individual"
def SUBCLASS_RELATION : String := "rdfs:subClassOf"
def TYPE_RELATION : String := "rdf:type"
def DOMAIN_RELATION : String := "rdfs:domain"
def RANGE_RELATION : String := "rdfs:range"

/-- Modelled from the spec: the error taxonomy of `base_service`
    (spec.md §7) plus Python's `ValueError` for malformed stored enums. -/
inductive Err where
  | notFound : String → Err
  | validation : String → Err
  | invalidOperation : String → Err
  | valueError : String → Err
deriving DecidableEq, Repr

/-- Modelled from the spec: the `PropertyType` enum with values
    Object / Data / Annotation (spec.md §3); its string values follow the
    code's default `'object'` and the API's usage. -/
inductive PropertyType where
  | object
  | data
  | annot
deriving DecidableEq, Repr

def PropertyType.value : PropertyType → String
  | .object => "object"
  | .data => "data"
  | .annot => "annotation"

/-- Python `PropertyType(s)`: `none` models the `ValueError` raise. -/
def PropertyType.parse (s : String) : Option PropertyType :=
  if s = "object" then some .object
  else if s = "data" then some .data
  else if s = "annotation" then some .annot
  else none

/-- Modelled from the spec: the `PropertyCharacteristic` enum values
    (spec.md §3). -/
def validCharacteristics : List String :=
  ["functional", "inverse_functional", "transitive", "symmetric",
   "asymmetric", "reflexive", "irreflexive"]

/-- Modelled from the spec: the `OntologyClass` entity (spec.md §3). -/
structure OntologyClass where
  id : String
  label : String
  description : Option String
  parent_classes : List String
  equivalent_classes : List String
  disjoint_classes : List String
  is_abstract : Bool
  properties : List (String × Val)
deriving DecidableEq, Repr

/-- Modelled from the spec: the `OntologyProperty` entity (spec.md §3). -/
structure OntologyProperty where
  id : String
  label : String
  property_type : PropertyType
  description : Option String
  domain : List String
  range : List String
  inverse_of : Option String
  characteristics : List String
deriving DecidableEq, Repr

/-- Modelled from the spec: the `OntologyInstance` entity (spec.md §3). -/
structure OntologyInstance where
  id : String
  label : String
  class_ids : List String
  properties : List (String × Val)
deriving DecidableEq, Repr

/-- The `ReasoningResult` as used by `check_consistency` (warnings and the
    wall-clock `reasoning_time` are never set there and are omitted). -/
structure ReasoningResult where
  consistent : Bool
  errors : List String
deriving DecidableEq, Repr

structure OntologyStats where
  total_classes : Nat
  total_properties : Nat
  total_instances : Nat
  total_object_properties : Nat
  total_data_properties : Nat
  total_annotation_properties : Nat
  max_hierarchy_depth : Nat
deriving DecidableEq, Repr

/-- Model of `OntologyService._get_node_data`. -/
def get_node_data (g : GraphDB) (nid : String) : NodeData :=
  (get_node g nid).getD []

/-- The result of `OntologyService._initialize_ontology` applied to an empty store:
    the root class `owl:Thing`. -/
def initState : GraphDB :=
  { nodes := [("owl:Thing",
      [("label", Val.vs "Thing"),
       ("node_type", Val.vs CLASS_TYPE),
       ("description", Val.vs "Root of all classes")])],
    edges := [] }

/-- The node attribute map written for a class (Python's dict literal
    followed by `.update(class_obj.properties)`: the free-form attributes
    shadow the fixed keys). -/
def class_node_data (c : OntologyClass) : NodeData :=
  c.properties ++
    [("label", Val.vs c.label),
     ("node_type", Val.vs CLASS_TYPE),
     ("description", Val.vs (c.description.getD "")),
     ("is_abstract", Val.vb c.is_abstract)]

/-- The parent list actually written: an empty parent list defaults to
    `["owl:Thing"]`. -/
def effective_parents (c : OntologyClass) : List String :=
  if c.parent_classes.isEmpty then ["owl:Thing"] else c.parent_classes

/-- Model of `OntologyService.create_class`.  Returns the updated store together with
    the (mutated) class object: an empty parent list is replaced by
    `["owl:Thing"]` before the subclass edges are written. -/
def create_class (g : GraphDB) (c : OntologyClass) :
    Except Err (GraphDB × OntologyClass) :=
  if node_exists g c.id then
    .error (.validation ("Class '" ++ c.id ++ "' already exists"))
  else
    match c.parent_classes.find? (fun p => !(node_exists g p)) with
    | some p => .error (.notFound ("Parent class '" ++ p ++ "' not found"))
    | none =>
      let g1 := add_node g c.id (class_node_data c)
      let g2 := (effective_parents c).foldl
        (fun h p => add_edge h c.id p SUBCLASS_RELATION) g1
      let g3 := c.equivalent_classes.foldl
        (fun h q => if node_exists h q then add_edge h c.id q "owl:equivalentClass" else h) g2
      let g4 := c.disjoint_classes.foldl
        (fun h q => if node_exists h q then add_edge h c.id q "owl:disjointWith" else h) g3
      .ok (g4, { c with parent_classes := effective_parents c })

/-- The parent-class extraction of `get_class`: the targets of
    `rdfs:subClassOf` edges leaving `cid`, in edge-enumeration order. -/
def parents_from_edges (E : List GEdge) (cid : String) : List String :=
  E.filterMap (fun e =>
    if decide (e.src = cid) && decide (e.lbl = SUBCLASS_RELATION)
    then some e.dst else none)

/-- Model of `OntologyService.get_class`. -/
def get_class (g : GraphDB) (cid : String) : Except Err OntologyClass :=
  if !(node_exists g cid) then
    .error (.notFound ("Class '" ++ cid ++ "' not found"))
  else if dget (get_node_data g cid) "node_type" ≠ some (Val.vs CLASS_TYPE) then
    .error (.validation ("Node '" ++ cid ++ "' is not a class"))
  else
    .ok { id := cid,
          label := getStrD (dget (get_node_data g cid) "label") cid,
          description := getStrOpt (dget (get_node_data g cid) "description"),
          parent_classes := parents_from_edges g.edges cid,
          equivalent_classes := [],
          disjoint_classes := [],
          is_abstract := getBoolD (dget (get_node_data g cid) "is_abstract") false,
          properties := [] }

/-- Model of `OntologyService.get_all_classes` (per-node failures are skipped). -/
def get_all_classes (g : GraphDB) : List OntologyClass :=
  g.nodes.filterMap (fun n =>
    if dget n.2 "node_type" = some (Val.vs CLASS_TYPE) then (get_class g n.1).toOption
    else none)

/-- Uniform recursion fuel for the service's unbounded Python recursions:
    every traversal enters a class at most once per path and every step
    follows a stored edge, so `edges.length + 2` levels always suffice. -/
def fuelB (g : GraphDB) : Nat := g.edges.length + 2

/-- One level of `OntologyService.get_superclasses`: the Python `for` loop
    over `get_all_edges()`; `deeper` performs the recursive
    `get_superclasses(to_node, direct_only=False)` call (both the direct
    append and the recursive extend sit inside the same `try`, so a failing
    `get_class` skips both). -/
def superList (g : GraphDB) (deeper : String → List OntologyClass) :
    List GEdge → String → Bool → List OntologyClass
  | [], _, _ => []
  | e :: rest, cid, dOnly =>
    if decide (e.src = cid) && decide (e.lbl = SUBCLASS_RELATION) then
      match get_class g e.dst with
      | .ok c =>
        (c :: (if dOnly then [] else deeper e.dst)) ++ superList g deeper rest cid dOnly
      | .error _ => superList g deeper rest cid dOnly
    else
      superList g deeper rest cid dOnly

/-- Model of `OntologyService.get_superclasses` with the unbounded Python recursion
    replaced by structural recursion on `fuel` (which bounds only the
    nesting depth of indirect-superclass expansion). -/
def superFrom (g : GraphDB) : Nat → List GEdge → String → Bool → List OntologyClass
  | 0, es, cid, dOnly => superList g (fun _ => []) es cid dOnly
  | f + 1, es, cid, dOnly =>
    superList g (fun t => superFrom g f g.edges t false) es cid dOnly

/-- Model of `get_superclasses(class_id, direct_only)` at the service's call sites. -/
def get_superclasses (g : GraphDB) (cid : String) (dOnly : Bool) : List OntologyClass :=
  superFrom g (fuelB g) g.edges cid dOnly

/-- The nested `has_cycle` of `check_consistency`: each recursive branch
    receives its own copy `visited ∪ {class_id}` of the visited set. -/
def has_cycle (g : GraphDB) : Nat → String → List String → Bool
  | 0, _, _ => false
  | f + 1, cid, visited =>
    if cid ∈ visited then true
    else (get_superclasses g cid true).any (fun p => has_cycle g f p.id (cid :: visited))

/-- The body of the `for class_obj in self.get_all_classes()` loop of
    `check_consistency`. -/
def consistency_step (g : GraphDB) (res : ReasoningResult) (c : OntologyClass) :
    ReasoningResult :=
  if has_cycle g (fuelB g) c.id [] then
    { consistent := false,
      errors := res.errors ++
        ["Circular inheritance detected involving '" ++ c.id ++ "'"] }
  else res

/-- Model of `OntologyService.check_consistency` (the cycle sweep; wall-clock time
    omitted). -/
def check_consistency (g : GraphDB) : ReasoningResult :=
  (get_all_classes g).foldl (consistency_step g) { consistent := true, errors := [] }

/-- The node attribute map written for a property. -/
def prop_node_data (p : OntologyProperty) : NodeData :=
  [("label", Val.vs p.label),
   ("node_type", Val.vs PROPERTY_TYPE),
   ("property_type", Val.vs p.property_type.value),
   ("description", Val.vs (p.description.getD "")),
   ("inverse_of", Val.vs (p.inverse_of.getD "")),
   ("characteristics", Val.vs (String.intercalate "," p.characteristics))]

/-- The domain/range extraction of `get_property`: targets of `lbl`-labeled
    edges leaving `pid`, in edge-enumeration order. -/
def targets_from_edges (E : List GEdge) (pid lbl : String) : List String :=
  E.filterMap (fun e =>
    if decide (e.src = pid) && decide (e.lbl = lbl) then some e.dst else none)

/-- Model of `OntologyService.create_property`: domain/range entries that do not
    exist as graph nodes produce no edge and are silently dropped. -/
def create_property (g : GraphDB) (p : OntologyProperty) :
    Except Err (GraphDB × OntologyProperty) :=
  if node_exists g p.id then
    .error (.validation ("Property '" ++ p.id ++ "' already exists"))
  else
    let g1 := add_node g p.id (prop_node_data p)
    let g2 := p.domain.foldl
      (fun h d => if node_exists h d then add_edge h p.id d DOMAIN_RELATION else h) g1
    let g3 := p.range.foldl
      (fun h r => if node_exists h r then add_edge h p.id r RANGE_RELATION else h) g2
    .ok (g3, p)

/-- Model of `OntologyService.get_property`. -/
def get_property (g : GraphDB) (pid : String) : Except Err OntologyProperty :=
  if !(node_exists g pid) then
    .error (.notFound ("Property '" ++ pid ++ "' not found"))
  else if dget (get_node_data g pid) "node_type" ≠ some (Val.vs PROPERTY_TYPE) then
    .error (.validation ("Node '" ++ pid ++ "' is not a property"))
  else
    match PropertyType.parse (getStrD (dget (get_node_data g pid) "property_type") "object") with
    | none => .error (.valueError ("'" ++ pid ++ "' has an invalid property type"))
    | some pt =>
      .ok { id := pid,
            label := getStrD (dget (get_node_data g pid) "label") pid,
            property_type := pt,
            description := getStrOpt (dget (get_node_data g pid) "description"),
            domain := targets_from_edges g.edges pid DOMAIN_RELATION,
            range := targets_from_edges g.edges pid RANGE_RELATION,
            inverse_of :=
              (if getStrD (dget (get_node_data g pid) "inverse_of") "" = "" then none
               else some (getStrD (dget (get_node_data g pid) "inverse_of") "")),
            characteristics :=
              (if getStrD (dget (get_node_data g pid) "characteristics") "" = "" then []
               else ((getStrD (dget (get_node_data g pid) "characteristics") "").splitOn ",").filter
                 (fun c => decide (c ∈ validCharacteristics))) }

/-- Model of `OntologyService.get_all_properties` (per-node failures are skipped). -/
def get_all_properties (g : GraphDB) : List OntologyProperty :=
  g.nodes.filterMap (fun n =>
    if dget n.2 "node_type" = some (Val.vs PROPERTY_TYPE) then (get_property g n.1).toOption
    else none)

/-- The node attribute map written for an instance (user properties
    alongside the reserved scaffolding keys). -/
def inst_node_data (inst : OntologyInstance) : NodeData :=
  inst.properties ++
    [("label", Val.vs inst.label), ("node_type", Val.vs INSTANCE_TYPE)]

/-- Model of `OntologyService.create_instance`. -/
def create_instance (g : GraphDB) (inst : OntologyInstance) :
    Except Err (GraphDB × OntologyInstance) :=
  if node_exists g inst.id then
    .error (.validation ("Instance '" ++ inst.id ++ "' already exists"))
  else
    match inst.class_ids.find? (fun cid => !(node_exists g cid)) with
    | some cid => .error (.notFound ("Class '" ++ cid ++ "' not found"))
    | none =>
      let g1 := add_node g inst.id (inst_node_data inst)
      let g2 := inst.class_ids.foldl
        (fun h cid => add_edge h inst.id cid TYPE_RELATION) g1
      .ok (g2, inst)

/-- The property dictionaries built by `get_class_properties` and enriched
    by `compute_inherited_properties` (`inheritance_path` is observed only
    through `.get('inheritance_path', [])`, so the missing key is `[]`). -/
structure PropInfo where
  id : String
  label : String
  property_type : String
  description : Option String
  range : List String
  required : Bool
  source : String
  inheritance_path : List String
deriving DecidableEq, Repr

/-- Model of `OntologyService.get_class_properties`: properties whose domain contains
    the class; `required` is hard-coded `False` in the source
    ("Default - can be enhanced later"). -/
def get_class_properties (g : GraphDB) (cid : String) : List PropInfo :=
  (get_all_properties g).filterMap (fun p =>
    if cid ∈ p.domain then
      some { id := p.id,
             label := p.label,
             property_type := p.property_type.value,
             description := p.description,
             range := p.range,
             required := false,
             source := "direct",
             inheritance_path := [] }
    else none)

/-- The `for parent_id in class_obj.parent_classes` loop of
    `compute_inherited_properties`; `deeper` performs the recursive call on
    the parent (sharing the threaded `visited` set).  Only
    `NodeNotFoundError` is caught; other `get_class` failures propagate. -/
def inheritLevel (g : GraphDB)
    (deeper : String → List String → Except Err (List PropInfo × List String)) :
    List String → List String → Except Err (List PropInfo × List String)
  | [], visited => .ok ([], visited)
  | p :: rest, visited =>
    if p = "owl:Thing" then inheritLevel g deeper rest visited
    else
      match get_class g p with
      | .error (.notFound _) => inheritLevel g deeper rest visited
      | .error e => .error e
      | .ok parentCls =>
        let parentProps := (get_class_properties g p).map
          (fun pr => { pr with source := parentCls.label,
                               inheritance_path := [parentCls.label] })
        match deeper p visited with
        | .error e => .error e
        | .ok (gps, vis1) =>
          let gps1 := gps.map
            (fun pr => { pr with inheritance_path := parentCls.label :: pr.inheritance_path })
          match inheritLevel g deeper rest vis1 with
          | .error e => .error e
          | .ok (restProps, vis2) => .ok (parentProps ++ gps1 ++ restProps, vis2)

/-- Model of `OntologyService.compute_inherited_properties`.  The Python `visited`
    set is a single shared mutable object (`visited.add` plus passing the
    same set to the recursive call), so it is threaded through and
    returned; `fuel` bounds only the recursion depth. -/
def compute_inherited_fuel (g : GraphDB) :
    Nat → String → List String → Except Err (List PropInfo × List String)
  | 0, cid, visited =>
    -- fuel floor: never reached from the service entry point
    if cid ∈ visited then .ok ([], visited) else .ok ([], cid :: visited)
  | f + 1, cid, visited =>
    if cid ∈ visited then .ok ([], visited)
    else
      let vis := cid :: visited
      match get_class g cid with
      | .error (.notFound _) => .ok ([], vis)
      | .error e => .error e
      | .ok cls =>
        inheritLevel g (fun p v => compute_inherited_fuel g f p v) cls.parent_classes vis

/-- Model of `compute_inherited_properties(class_id)` with the default `visited=∅`. -/
def compute_inherited_properties (g : GraphDB) (cid : String) :
    Except Err (List PropInfo) :=
  (compute_inherited_fuel g (fuelB g) cid []).map (fun r => r.1)

/-- The dictionary returned by `OntologyService.get_class_full`. -/
structure ClassFull where
  id : String
  label : String
  description : Option String
  parent_classes : List String
  is_abstract : Bool
  direct_properties : List PropInfo
  inherited_properties : List PropInfo
  all_properties : List PropInfo
deriving DecidableEq, Repr

/-- Model of `OntologyService.get_class_full`. -/
def get_class_full (g : GraphDB) (cid : String) : Except Err ClassFull :=
  match get_class g cid with
  | .error e => .error e
  | .ok cls =>
    let direct := get_class_properties g cid
    match compute_inherited_properties g cid with
    | .error e => .error e
    | .ok inh =>
      .ok { id := cls.id,
            label := cls.label,
            description := cls.description,
            parent_classes := cls.parent_classes,
            is_abstract := cls.is_abstract,
            direct_properties := direct,
            inherited_properties := inh,
            all_properties := direct ++ inh }

/-- Model of `OntologyService.validate_instance_properties`. -/
def validate_instance_properties (g : GraphDB) (cid : String)
    (props : List (String × Val)) : Except Err (List String) :=
  (get_class_full g cid).map (fun cf =>
    cf.all_properties.foldl
      (fun errs pr =>
        if pr.required then
          let missing :=
            match props.find? (fun q => decide (q.1 = pr.id)) with
            | none => true
            | some (_, Val.vnull) => true
            | some _ => false
          if missing then
            errs ++ ["Missing required property '" ++ pr.label ++ "'" ++
              (if pr.source ≠ "direct" then " (inherited from " ++ pr.source ++ ")" else "")]
          else errs
        else errs)
      [])

/-- The nested `get_depth` of `get_statistics`. -/
def get_depth (g : GraphDB) : Nat → String → Nat
  | 0, _ => 0
  | f + 1, cid =>
    if (get_superclasses g cid true).isEmpty then 0
    else 1 + ((get_superclasses g cid true).map
      (fun sc => get_depth g f sc.id)).foldl Nat.max 0

/-- Model of `OntologyService.get_statistics`. -/
def get_statistics (g : GraphDB) : OntologyStats :=
  let all_classes := get_all_classes g
  let all_properties := get_all_properties g
  let total_instances :=
    (g.nodes.filter (fun n =>
      decide (dget n.2 "node_type" = some (Val.vs INSTANCE_TYPE)))).length
  let obj_props := (all_properties.filter (fun p => decide (p.property_type = .object))).length
  let data_props := (all_properties.filter (fun p => decide (p.property_type = .data))).length
  let annot_props := (all_properties.filter (fun p => decide (p.property_type = .annot))).length
  let max_depth := all_classes.foldl (fun m c => Nat.max m (get_depth g (fuelB g) c.id)) 0
  { total_classes := all_classes.length,
    total_properties := all_properties.length,
    total_instances := total_instances,
    total_object_properties := obj_props,
    total_data_properties := data_props,
    total_annotation_properties := annot_props,
    max_hierarchy_depth := max_depth }

/-! ## Concrete stores used by the claims -/

/-- A class object with no extra structure, as built by the API layer. -/
def mkC (i l : String) (ps : List String) : OntologyClass :=
  { id := i, label := l, description := some (l ++ " desc"), parent_classes := ps,
    equivalent_classes := [], disjoint_classes := [], is_abstract := false,
    properties := [] }

/-- A data property with the given domain (range `xsd:string`, as in the
    API's demo data). -/
def mkP (i l : String) (dom : List String) : OntologyProperty :=
  { id := i, label := l, property_type := .data, description := none,
    domain := dom, range := ["xsd:string"], inverse_of := none,
    characteristics := [] }

/-- Store with `Animal` carrying the required-intent property `name` and `Dog` subclassing it
    (spec §8's validation scenario), built through the service. -/
def buildAD : Except Err GraphDB := do
  let (g1, _) ← create_class initState (mkC "cls:Animal" "Animal" [])
  let (g2, _) ← create_class g1 (mkC "cls:Dog" "Dog" ["cls:Animal"])
  let (g3, _) ← create_property g2 (mkP "prop:name" "name" ["cls:Animal"])
  .ok g3

/-- Chain `D ⊑ C ⊑ B` with a property on `B`, built through the service. -/
def buildChain : Except Err GraphDB := do
  let (g1, _) ← create_class initState (mkC "cls:B" "B" [])
  let (g2, _) ← create_class g1 (mkC "cls:C" "C" ["cls:B"])
  let (g3, _) ← create_class g2 (mkC "cls:D" "D" ["cls:C"])
  let (g4, _) ← create_property g3 (mkP "prop:P" "P" ["cls:B"])
  .ok g4

/-- Classic diamond `D ⊑ B ⊑ A`, `D ⊑ C ⊑ A` with a property on the
    reconvergence class `A` itself. -/
def buildClassicDiamond : Except Err GraphDB := do
  let (g1, _) ← create_class initState (mkC "cls:A" "A" [])
  let (g2, _) ← create_class g1 (mkC "cls:B" "B" ["cls:A"])
  let (g3, _) ← create_class g2 (mkC "cls:C" "C" ["cls:A"])
  let (g4, _) ← create_class g3 (mkC "cls:D" "D" ["cls:B", "cls:C"])
  let (g5, _) ← create_property g4 (mkP "prop:P" "P" ["cls:A"])
  .ok g5

/-- Deep diamond `D ⊑ B ⊑ A ⊑ Z`, `D ⊑ C ⊑ A ⊑ Z` with the property on
    `Z`, strictly above the reconvergence class `A`: the declaring class is
    reachable from `D` via two distinct ancestor paths. -/
def buildDeepDiamond : Except Err GraphDB := do
  let (g1, _) ← create_class initState (mkC "cls:Z" "Z" [])
  let (g2, _) ← create_class g1 (mkC "cls:A" "A" ["cls:Z"])
  let (g3, _) ← create_class g2 (mkC "cls:B" "B" ["cls:A"])
  let (g4, _) ← create_class g3 (mkC "cls:C" "C" ["cls:A"])
  let (g5, _) ← create_class g4 (mkC "cls:D" "D" ["cls:B", "cls:C"])
  let (g6, _) ← create_property g5 (mkP "prop:P" "P" ["cls:Z"])
  .ok g6

/-- A raw store with the cyclic subclass edges `A → B → A` (the service
    itself refuses to create such edges, spec §9: lazy enforcement; the
    store allows them). -/
def gCyc : GraphDB :=
  { nodes := [("A", [("label", Val.vs "A"), ("node_type", Val.vs CLASS_TYPE)]),
              ("B", [("label", Val.vs "B"), ("node_type", Val.vs CLASS_TYPE)])],
    edges := [⟨"A", "B", SUBCLASS_RELATION⟩, ⟨"B", "A", SUBCLASS_RELATION⟩] }

/-- A single class created under the root. -/
def buildOneClass : Except Err (GraphDB × OntologyClass) :=
  create_class initState (mkC "cls:A" "A" [])

/-! ## C1: required-property validation is dead code -/

theorem gcp_required_false (g : GraphDB) (cid : String) :
    ∀ pr ∈ get_class_properties g cid, pr.required = false := by
  intro pr hpr
  unfold get_class_properties at hpr
  rcases List.mem_filterMap.mp hpr with ⟨p, _, hif⟩
  by_cases h : cid ∈ p.domain
  · simp only [if_pos h, Option.some.injEq] at hif
    subst hif; rfl
  · simp [if_neg h] at hif

theorem inheritLevel_required_false (g : GraphDB)
    (deeper : String → List String → Except Err (List PropInfo × List String))
    (hd : ∀ p vis l v, deeper p vis = .ok (l, v) → ∀ pr ∈ l, pr.required = false) :
    ∀ ps visited l v, inheritLevel g deeper ps visited = .ok (l, v) →
      ∀ pr ∈ l, pr.required = false := by
  intro ps
  induction ps with
  | nil =>
    intro visited l v h pr hpr
    unfold inheritLevel at h
    injection h with h1; injection h1 with h2 _; subst h2; simp at hpr
  | cons p rest ih =>
    intro visited l v h pr hpr
    unfold inheritLevel at h
    split at h
    · exact ih _ l v h pr hpr
    · split at h
      · exact ih _ l v h pr hpr
      · exact absurd h (by simp)
      · rename_i parentCls _
        split at h
        · exact absurd h (by simp)
        · rename_i gps vis1 hgps
          split at h
          · exact absurd h (by simp)
          · rename_i restProps vis2 hrest
            injection h with h1; injection h1 with h2 _; subst h2
            rcases List.mem_append.mp hpr with h3 | h3
            · rcases List.mem_append.mp h3 with h4 | h4
              · rcases List.mem_map.mp h4 with ⟨pr0, hpr0, heq⟩
                have := gcp_required_false g p pr0 hpr0
                subst heq; simpa using this
              · rcases List.mem_map.mp h4 with ⟨pr0, hpr0, heq⟩
                have := hd p visited gps vis1 hgps pr0 hpr0
                subst heq; simpa using this
            · exact ih vis1 restProps vis2 hrest pr h3

theorem cif_required_false (g : GraphDB) :
    ∀ fuel cid visited l v, compute_inherited_fuel g fuel cid visited = .ok (l, v) →
      ∀ pr ∈ l, pr.required = false := by
  intro fuel
  induction fuel with
  | zero =>
    intro cid visited l v h pr hpr
    unfold compute_inherited_fuel at h
    split at h <;>
      (injection h with h1; injection h1 with h2 _; subst h2; simp at hpr)
  | succ f ih =>
    intro cid visited l v h pr hpr
    unfold compute_inherited_fuel at h
    split at h
    · injection h with h1; injection h1 with h2 _; subst h2; simp at hpr
    · split at h
      · injection h with h1; injection h1 with h2 _; subst h2; simp at hpr
      · exact absurd h (by simp)
      · exact inheritLevel_required_false g _ (fun p vis l0 v0 h0 => ih p vis l0 v0 h0)
          _ _ l v h pr hpr

theorem class_full_required_false (g : GraphDB) (cid : String) (cf : ClassFull)
    (h : get_class_full g cid = .ok cf) :
    ∀ pr ∈ cf.all_properties, pr.required = false := by
  intro pr hpr
  unfold get_class_full at h
  cases hcls : get_class g cid with
  | error e => rw [hcls] at h; simp at h
  | ok cls =>
    rw [hcls] at h
    cases hinh : compute_inherited_properties g cid with
    | error e => rw [hinh] at h; simp at h
    | ok inh =>
      rw [hinh] at h
      injection h with h1
      rw [← h1] at hpr
      simp only [List.mem_append] at hpr
      rcases hpr with h2 | h2
      · exact gcp_required_false g cid pr h2
      · unfold compute_inherited_properties at hinh
        cases hfu : compute_inherited_fuel g (fuelB g) cid [] with
        | error e => rw [hfu] at hinh; simp [Except.map] at hinh
        | ok r =>
          rw [hfu] at hinh
          simp only [Except.map] at hinh
          injection hinh with hinh
          exact cif_required_false g (fuelB g) cid [] r.1 r.2 hfu pr (by rw [hinh]; exact h2)

theorem validate_fold_empty (props : List (String × Val)) :
    ∀ (l : List PropInfo) (errs : List String), (∀ pr ∈ l, pr.required = false) →
      l.foldl
        (fun errs pr =>
          if pr.required then
            let missing :=
              match props.find? (fun q => decide (q.1 = pr.id)) with
              | none => true
              | some (_, Val.vnull) => true
              | some _ => false
            if missing then
              errs ++ ["Missing required property '" ++ pr.label ++ "'" ++
                (if pr.source ≠ "direct" then " (inherited from " ++ pr.source ++ ")" else "")]
            else errs
          else errs)
        errs = errs := by
  intro l
  induction l with
  | nil => intro errs _; rfl
  | cons pr rest ih =>
    intro errs hall
    have hpr : pr.required = false := hall pr (List.mem_cons_self _ _)
    simp only [List.foldl_cons, hpr, if_neg (Bool.false_ne_true)]
    exact ih errs (fun q hq => hall q (List.mem_cons_of_mem _ hq))

/-- C1.  The claim is right about the intent and wrong about the code: the
    Animal/Dog scenario (required property `name` on `Animal`, `Dog ⊑
    Animal`, a `Dog` instance lacking `name`) yields NO validation error,
    because `get_class_properties` hard-codes `required := false` for every
    property, so `validate_instance_properties` can never report anything:
    it returns the empty error list on every class of every store. -/
theorem C1_validation_never_reports :
    (∀ (g : GraphDB) (cid : String) (props : List (String × Val)),
       validate_instance_properties g cid props =
         (get_class_full g cid).map (fun _ => [])) ∧
    buildAD.map (fun g => validate_instance_properties g "cls:Dog" []) =
      .ok (.ok []) := by
  constructor
  · intro g cid props
    unfold validate_instance_properties
    cases hcf : get_class_full g cid with
    | error e => rfl
    | ok cf =>
      simp only [Except.map]
      congr 1
      exact validate_fold_empty props cf.all_properties []
        (class_full_required_false g cid cf hcf)
  · rfl

/-! ## C4: diamond inheritance duplication -/

/-- C4, counterexample.  In the deep diamond (`D ⊑ B ⊑ A ⊑ Z` and
    `D ⊑ C ⊑ A ⊑ Z`, property `P` declared on `Z`), the declaring ancestor
    `Z` is reachable from `D` via two distinct ancestor paths, yet
    `compute_inherited_properties(D)` lists `P` exactly ONCE (via
    `[B, A, Z]`): the shared mutable `visited` set cuts off the second
    traversal at `A`, so the claimed "twice, once per path" fails. -/
theorem C4_deep_diamond_single_occurrence :
    buildDeepDiamond.map (fun g =>
        (compute_inherited_properties g "cls:D").map (fun l =>
          ((l.filter (fun pr => decide (pr.id = "prop:P"))).map
            (fun pr => pr.inheritance_path)))) =
      .ok (.ok [["B", "A", "Z"]]) ∧
    ([["B", "A", "Z"]] : List (List String)).length = 1 ∧ (1 : Nat) ≠ 2 := by
  refine ⟨rfl, rfl, by decide⟩

/-- C4, amended: duplication does occur — once per path — exactly when the
    two ancestor paths reconverge at the declaring class itself: in the
    classic diamond (`D ⊑ B ⊑ A`, `D ⊑ C ⊑ A`, property `P` on `A`) the
    property appears twice, with per-path `inheritance_path`s `[B, A]` and
    `[C, A]`, because each parent's direct properties are collected before
    the shared `visited` check applies. -/
theorem C4_classic_diamond_two_occurrences :
    buildClassicDiamond.map (fun g =>
        (compute_inherited_properties g "cls:D").map (fun l =>
          ((l.filter (fun pr => decide (pr.id = "prop:P"))).map
            (fun pr => (pr.inheritance_path, pr.source))))) =
      .ok (.ok [(["B", "A"], "A"), (["C", "A"], "A")]) := by
  rfl

/-! ## C5: nearest-ancestor-first inheritance paths -/

/-- C5.  For the chain `D ⊑ C ⊑ B` with property `P` whose domain is `B`,
    `compute_inherited_properties(D)` contains the entry for `P` with
    `inheritance_path = [C.label, B.label] = ["C", "B"]`
    (nearest-ancestor-first) and `source = B.label = "B"`. -/
theorem C5_nearest_ancestor_first :
    buildChain.map (fun g =>
        (compute_inherited_properties g "cls:D").map (fun l =>
          l.filterMap (fun pr =>
            if pr.id = "prop:P" then some (pr.inheritance_path, pr.source) else none))) =
      .ok (.ok [(["C", "B"], "B")]) := by
  rfl

/-! ## C7: class round-trip -/

/-- A class supplied without a description (and without parents). -/
def xNoDesc : OntologyClass :=
  { id := "cls:X", label := "X", description := none, parent_classes := [],
    equivalent_classes := [], disjoint_classes := [], is_abstract := false,
    properties := [] }

/-- C7, counterexample.  `create_class` stores `description or ""` and
    `get_class` reads the stored string back, so a class accepted with NO
    description (`none`) reads back with description `some ""` — not "the
    same description as supplied". -/
theorem C7_description_none_not_round_tripped :
    ((create_class initState xNoDesc).bind
        (fun r => get_class r.1 "cls:X")).map (fun c => c.description) =
      .ok (some "") ∧
    xNoDesc.description = none ∧ (some "" : Option String) ≠ none := by
  refine ⟨rfl, rfl, by decide⟩

/-! ## C8 / C9: statistics -/

/-- C8, counterexample.  After creating exactly one class (and nothing
    else) through the service, `get_statistics` reports `total_classes = 2`,
    not `1`: the pre-initialized root `owl:Thing` is itself a class node
    and is counted. -/
theorem C8_root_class_counted :
    buildOneClass.map (fun r => (get_statistics r.1).total_classes) = .ok 2 ∧
    (2 : Nat) ≠ 1 := by
  refine ⟨rfl, by decide⟩

/-- The claim's depth assignment, written from the claim's words: depth 0
    for root-adjacent classes (classes directly under the root), otherwise
    1 + max over the direct superclasses' depths.  Used only to compare the
    claim against the code's `get_depth`. -/
def spec_depth (g : GraphDB) : Nat → String → Nat
  | 0, _ => 0
  | f + 1, cid =>
    let sup := get_superclasses g cid true
    if sup.isEmpty then 0
    else if sup.any (fun sc => decide (sc.id = "owl:Thing")) then 0
    else 1 + (sup.map (fun sc => spec_depth g f sc.id)).foldl Nat.max 0

/-- The claim's maximum hierarchy depth: the maximum of `spec_depth` over
    all classes. -/
def spec_max_hierarchy_depth (g : GraphDB) : Nat :=
  (get_all_classes g).foldl (fun m c => Nat.max m (spec_depth g (fuelB g) c.id)) 0

/-- C9, counterexample.  For the store holding a single class directly
    under the root, the code's `get_statistics` reports
    `max_hierarchy_depth = 1` while the claim's formula (depth 0 for
    root-adjacent classes) yields 0: `get_depth` returns 0 only for classes
    with NO direct superclass, so a root-adjacent class has depth
    `1 + depth(owl:Thing) = 1`. -/
theorem C9_root_adjacent_depth_is_one :
    buildOneClass.map (fun r =>
        ((get_statistics r.1).max_hierarchy_depth, spec_max_hierarchy_depth r.1)) =
      .ok (1, 0) ∧
    (1 : Nat) ≠ 0 := by
  refine ⟨rfl, by decide⟩

/-! ## C10: property domain/range round-trip -/

/-- A store with one class and one property whose domain and range both
    name that class. -/
def buildOverlap : Except Err GraphDB := do
  let (g1, _) ← create_class initState (mkC "cls:A" "A" [])
  let (g2, _) ← create_property g1
    { mkP "prop:p" "p" ["cls:A"] with range := ["cls:A"] }
  .ok g2

/-- C10, counterexample.  `cls:A` existed as a graph node at creation time
    and appears in the supplied domain, yet the read-back domain is empty:
    the store keys edges by (source, target), so writing the range edge
    `(prop:p, cls:A)` overwrites the domain edge with the same key.  The
    claim's "exactly those entries of the supplied lists that existed as
    graph nodes" predicts `(["cls:A"], ["cls:A"])`. -/
theorem C10_overlapping_domain_range_lost :
    buildOverlap.map (fun g =>
        (get_property g "prop:p").map (fun q => (q.domain, q.range))) =
      .ok (.ok ([], ["cls:A"])) ∧
    (([], ["cls:A"]) : List String × List String) ≠ (["cls:A"], ["cls:A"]) := by
  refine ⟨rfl, by decide⟩

/-! ## C2: cycle detection marks the ontology inconsistent -/

theorem consistency_errors_mono (g : GraphDB) :
    ∀ (l : List OntologyClass) (res : ReasoningResult) (e : String),
      e ∈ res.errors → e ∈ (l.foldl (consistency_step g) res).errors := by
  intro l
  induction l with
  | nil => intro res e he; exact he
  | cons a t ih =>
    intro res e he
    simp only [List.foldl_cons]
    apply ih
    unfold consistency_step
    split
    · exact List.mem_append_left _ he
    · exact he

theorem consistency_false_stable (g : GraphDB) :
    ∀ (l : List OntologyClass) (res : ReasoningResult), res.consistent = false →
      (l.foldl (consistency_step g) res).consistent = false := by
  intro l
  induction l with
  | nil => intro res h; exact h
  | cons a t ih =>
    intro res h
    simp only [List.foldl_cons]
    apply ih
    unfold consistency_step
    split
    · rfl
    · exact h

theorem consistency_fold_flags (g : GraphDB) (c : OntologyClass)
    (hcyc : has_cycle g (fuelB g) c.id [] = true) :
    ∀ (l : List OntologyClass) (res : ReasoningResult), c ∈ l →
      (l.foldl (consistency_step g) res).consistent = false ∧
      ("Circular inheritance detected involving '" ++ c.id ++ "'") ∈
        (l.foldl (consistency_step g) res).errors := by
  intro l
  induction l with
  | nil => intro res h; exact absurd h (List.not_mem_nil _)
  | cons a t ih =>
    intro res hmem
    rcases List.mem_cons.mp hmem with h | h
    · subst h
      simp only [List.foldl_cons]
      have hstep : consistency_step g res c =
          { consistent := false,
            errors := res.errors ++
              ["Circular inheritance detected involving '" ++ c.id ++ "'"] } := by
        unfold consistency_step
        rw [if_pos hcyc]
      rw [hstep]
      refine ⟨consistency_false_stable g t _ rfl, ?_⟩
      apply consistency_errors_mono
      simp
    · simp only [List.foldl_cons]
      exact ih _ h

/-- C2.  Whenever the cycle probe `has_cycle` (which revisits a class
    already on the current traversal path) fires for some class in the
    store, `check_consistency` reports `consistent = false` and records the
    error naming the class from which the cycle was probed. -/
theorem C2_cycle_flagged (g : GraphDB) (c : OntologyClass)
    (hmem : c ∈ get_all_classes g)
    (hcyc : has_cycle g (fuelB g) c.id [] = true) :
    (check_consistency g).consistent = false ∧
    ("Circular inheritance detected involving '" ++ c.id ++ "'") ∈
      (check_consistency g).errors := by
  unfold check_consistency
  exact consistency_fold_flags g c hcyc (get_all_classes g) _ hmem

/-- The class object the service reads back for `A` in the cyclic store. -/
def cACyc : OntologyClass :=
  { id := "A", label := "A", description := none, parent_classes := ["B"],
    equivalent_classes := [], disjoint_classes := [], is_abstract := false,
    properties := [] }

/-- C2, witness: in the raw store with subclass edges `A → B → A`,
    consistency checking flags the cycle with an error naming `A`. -/
theorem C2_cycle_flagged_witness :
    (check_consistency gCyc).consistent = false ∧
    ("Circular inheritance detected involving 'A'") ∈ (check_consistency gCyc).errors := by
  have h := C2_cycle_flagged gCyc cACyc (by decide) (by rfl)
  exact h

/-! ## C3: acyclic hierarchies are reported consistent -/

/-- The raw subclass-of step relation stored in the graph. -/
def subEdge (g : GraphDB) (a b : String) : Bool :=
  g.edges.any (fun e =>
    decide (e.src = a) && decide (e.dst = b) && decide (e.lbl = SUBCLASS_RELATION))

def stepRel (g : GraphDB) (a b : String) : Prop := subEdge g a b = true

/-- The subclass-of relation of the store is acyclic. -/
def Acyclic (g : GraphDB) : Prop := ∀ c, ¬ Relation.TransGen (stepRel g) c c

theorem get_class_ok_id (g : GraphDB) (x : String) (c : OntologyClass)
    (h : get_class g x = .ok c) : c.id = x := by
  unfold get_class at h
  split at h
  · exact absurd h (by simp)
  · split at h
    · exact absurd h (by simp)
    · injection h with h1; rw [← h1]

theorem mem_superList_direct (g : GraphDB)
    (deeper : String → List OntologyClass) (cid : String) (sc : OntologyClass) :
    ∀ es, sc ∈ superList g deeper es cid true →
      ∃ e ∈ es, e.src = cid ∧ e.lbl = SUBCLASS_RELATION ∧ get_class g e.dst = .ok sc := by
  intro es
  induction es with
  | nil => intro h; exact absurd h (List.not_mem_nil _)
  | cons e rest ih =>
    intro h
    unfold superList at h
    split at h
    · rename_i hcond
      simp only [Bool.and_eq_true, decide_eq_true_eq] at hcond
      split at h
      · rename_i c hok
        simp only [if_pos, List.cons_append, List.nil_append, List.mem_cons] at h
        rcases h with h1 | h1
        · exact ⟨e, List.mem_cons_self _ _, hcond.1, hcond.2, by rw [← h1] at hok; exact hok⟩
        · rcases ih h1 with ⟨e', he', h2⟩
          exact ⟨e', List.mem_cons_of_mem _ he', h2⟩
      · rcases ih h with ⟨e', he', h2⟩
        exact ⟨e', List.mem_cons_of_mem _ he', h2⟩
    · rcases ih h with ⟨e', he', h2⟩
      exact ⟨e', List.mem_cons_of_mem _ he', h2⟩

theorem mem_direct_super_step (g : GraphDB) (cid : String) (sc : OntologyClass)
    (h : sc ∈ get_superclasses g cid true) : stepRel g cid sc.id := by
  have key : ∃ e ∈ g.edges, e.src = cid ∧ e.lbl = SUBCLASS_RELATION ∧
      get_class g e.dst = .ok sc := by
    unfold get_superclasses at h
    cases hf : fuelB g with
    | zero => rw [hf] at h; exact mem_superList_direct g _ cid sc g.edges h
    | succ f => rw [hf] at h; exact mem_superList_direct g _ cid sc g.edges h
  rcases key with ⟨e, he, h1, h2, h3⟩
  have hid : sc.id = e.dst := get_class_ok_id g e.dst sc h3
  unfold stepRel subEdge
  rw [List.any_eq_true]
  exact ⟨e, he, by simp [h1, h2, hid]⟩

theorem hasCycle_acyclic_false (g : GraphDB) (hac : Acyclic g) :
    ∀ (f : Nat) (c : String) (visited : List String),
      (∀ v ∈ visited, Relation.TransGen (stepRel g) v c) →
      has_cycle g f c visited = false := by
  intro f
  induction f with
  | zero => intro c visited _; rfl
  | succ f ih =>
    intro c visited hinv
    unfold has_cycle
    rw [if_neg (fun hmem => hac c (hinv c hmem))]
    rw [List.any_eq_false]
    intro p hp
    have hfalse : has_cycle g f p.id (c :: visited) = false := by
      apply ih
      intro v hv
      rcases List.mem_cons.mp hv with h | h
      · subst h
        exact Relation.TransGen.single (mem_direct_super_step g v p hp)
      · exact Relation.TransGen.tail (hinv v h) (mem_direct_super_step g c p hp)
    simp [hfalse]

theorem consistency_fold_id (g : GraphDB) :
    ∀ (l : List OntologyClass) (res : ReasoningResult),
      (∀ c ∈ l, has_cycle g (fuelB g) c.id [] = false) →
      l.foldl (consistency_step g) res = res := by
  intro l
  induction l with
  | nil => intro res _; rfl
  | cons a t ih =>
    intro res hall
    simp only [List.foldl_cons]
    have hstep : consistency_step g res a = res := by
      unfold consistency_step
      rw [if_neg (by rw [hall a (List.mem_cons_self _ _)]; exact Bool.false_ne_true)]
    rw [hstep]
    exact ih res (fun c hc => hall c (List.mem_cons_of_mem _ hc))

/-- C3.  For every store whose subclass-of relation is acyclic — diamonds
    included — `check_consistency` returns `consistent = true` with an
    empty error list: the cycle probe copies the visited set per branch and
    only a revisit on the current path can fire it. -/
theorem C3_acyclic_consistent (g : GraphDB) (hac : Acyclic g) :
    check_consistency g = { consistent := true, errors := [] } := by
  unfold check_consistency
  exact consistency_fold_id g (get_all_classes g) _
    (fun c _ => hasCycle_acyclic_false g hac (fuelB g) c.id [] (by simp))

/-- The classic-diamond store (extracted from its service construction). -/
def gDia : GraphDB :=
  match buildClassicDiamond with
  | .ok g => g
  | .error _ => initState

/-- A topological rank witnessing acyclicity of `gDia`. -/
def rankDia (s : String) : Nat :=
  if s = "cls:D" then 0
  else if s = "cls:B" then 1
  else if s = "cls:C" then 1
  else if s = "cls:A" then 2
  else if s = "owl:Thing" then 3
  else 7

theorem rank_acyclic (g : GraphDB) (r : String → Nat)
    (hr : ∀ a b, stepRel g a b → r a < r b) : Acyclic g := by
  intro c hc
  have mono : ∀ a b, Relation.TransGen (stepRel g) a b → r a < r b := by
    intro a b h
    induction h with
    | single h1 => exact hr _ _ h1
    | tail _ h2 ih => exact ih.trans (hr _ _ h2)
  exact lt_irrefl (r c) (mono c c hc)

/-- C3, witness: the diamond store (two parents reaching the common
    ancestor `A`) is acyclic and is reported consistent with no errors. -/
theorem C3_acyclic_consistent_witness :
    Acyclic gDia ∧ check_consistency gDia = { consistent := true, errors := [] } := by
  have hE : gDia.edges =
      [⟨"cls:A", "owl:Thing", SUBCLASS_RELATION⟩,
       ⟨"cls:B", "cls:A", SUBCLASS_RELATION⟩,
       ⟨"cls:C", "cls:A", SUBCLASS_RELATION⟩,
       ⟨"cls:D", "cls:B", SUBCLASS_RELATION⟩,
       ⟨"cls:D", "cls:C", SUBCLASS_RELATION⟩,
       ⟨"prop:P", "cls:A", DOMAIN_RELATION⟩] := rfl
  have hac : Acyclic gDia := by
    apply rank_acyclic gDia rankDia
    intro a b h
    unfold stepRel subEdge at h
    rw [List.any_eq_true] at h
    rcases h with ⟨e, he, hcond⟩
    simp only [Bool.and_eq_true, decide_eq_true_eq] at hcond
    rw [hE] at he
    simp only [List.mem_cons, List.not_mem_nil, or_false] at he
    rcases he with h1 | h1 | h1 | h1 | h1 | h1 <;>
      · subst h1
        rcases hcond with ⟨⟨ha, hb⟩, hl⟩
        first
          | (subst ha; subst hb; decide)
          | (exfalso; revert hl; decide)
  exact ⟨hac, C3_acyclic_consistent gDia hac⟩

/-! ## C6: full superclass traversal reaches every ancestor -/

/-- Consecutive elements of the list are connected by stored subclass-of
    edges (a path in the hierarchy). -/
def chainNodes (g : GraphDB) : List String → Bool
  | [] => true
  | [_] => true
  | a :: b :: rest => subEdge g a b && chainNodes g (b :: rest)

theorem nodup_subset_length {α : Type} [DecidableEq α] (l l' : List α)
    (hn : l.Nodup) (hs : l ⊆ l') : l.length ≤ l'.length := by
  have h1 : l.toFinset.card = l.length := List.toFinset_card_of_nodup hn
  have h2 : l.toFinset ⊆ l'.toFinset := by
    intro x hx; rw [List.mem_toFinset] at *; exact hs hx
  calc l.length = l.toFinset.card := h1.symm
    _ ≤ l'.toFinset.card := Finset.card_le_card h2
    _ ≤ l'.length := List.toFinset_card_le l'

theorem chainNodes_suffix (g : GraphDB) :
    ∀ (l1 l2 : List String), chainNodes g (l1 ++ l2) = true → chainNodes g l2 = true := by
  intro l1
  induction l1 with
  | nil => intro l2 h; exact h
  | cons x l1 ih =>
    intro l2 h
    apply ih
    cases hl : l1 ++ l2 with
    | nil => rfl
    | cons y t =>
      rw [List.cons_append, hl] at h
      unfold chainNodes at h
      simp only [Bool.and_eq_true] at h
      exact h.2

theorem chainNodes_cut (g : GraphDB) :
    ∀ (w t : List String) (y : String),
      chainNodes g (w ++ y :: t) = true → chainNodes g (w ++ [y]) = true := by
  intro w
  induction w with
  | nil => intro t y _; rfl
  | cons x w ih =>
    intro t y h
    cases w with
    | nil =>
      simp only [List.nil_append, List.cons_append] at h ⊢
      unfold chainNodes at h ⊢
      simp only [Bool.and_eq_true] at h ⊢
      exact ⟨h.1, rfl⟩
    | cons z w' =>
      simp only [List.cons_append] at h ⊢
      unfold chainNodes at h ⊢
      simp only [Bool.and_eq_true] at h ⊢
      refine ⟨h.1, ?_⟩
      have := ih t y (by simpa using h.2)
      simpa using this

theorem chainNodes_transGen (g : GraphDB) :
    ∀ (m : List String) (a b : String),
      chainNodes g (a :: m ++ [b]) = true → Relation.TransGen (stepRel g) a b := by
  intro m
  induction m with
  | nil =>
    intro a b h
    have h' : chainNodes g [a, b] = true := by simpa using h
    unfold chainNodes at h'
    simp only [Bool.and_eq_true] at h'
    exact Relation.TransGen.single h'.1
  | cons y m' ih =>
    intro a b h
    simp only [List.cons_append] at h
    unfold chainNodes at h
    simp only [Bool.and_eq_true] at h
    exact Relation.TransGen.head h.1 (ih y b (by simpa using h.2))

theorem exists_dup_split {α : Type} [DecidableEq α] :
    ∀ (l : List α), ¬ l.Nodup → ∃ w y t u, l = w ++ ((y :: t) ++ (y :: u)) := by
  intro l
  induction l with
  | nil => intro h; exact absurd List.nodup_nil h
  | cons x l ih =>
    intro h
    rw [List.nodup_cons] at h
    by_cases hx : x ∈ l
    · rcases List.append_of_mem hx with ⟨s, t, hl⟩
      exact ⟨[], x, s, t, by rw [hl]; rfl⟩
    · have hnd : ¬ l.Nodup := fun hn => h ⟨hx, hn⟩
      rcases ih hnd with ⟨w, y, t, u, hl⟩
      exact ⟨x :: w, y, t, u, by rw [hl]; rfl⟩

theorem chainNodes_nodup (g : GraphDB) (hac : Acyclic g) :
    ∀ (l : List String), chainNodes g l = true → l.Nodup := by
  intro l hchain
  by_contra hnd
  rcases exists_dup_split l hnd with ⟨w, y, t, u, hl⟩
  subst hl
  have h1 : chainNodes g ((y :: t) ++ (y :: u)) = true := chainNodes_suffix g w _ hchain
  have h1 : chainNodes g ((y :: t) ++ y :: u) = true := h1
  have h2 : chainNodes g ((y :: t) ++ [y]) = true := chainNodes_cut g (y :: t) u y h1
  exact hac y (chainNodes_transGen g t y y (by simpa using h2))

theorem chainNodes_sources (g : GraphDB) :
    ∀ (l : List String), chainNodes g l = true →
      ∀ x ∈ l.dropLast, x ∈ g.edges.map (fun e => e.src) := by
  intro l
  induction l with
  | nil => intro _ x hx; simp at hx
  | cons a l ih =>
    intro hchain x hx
    cases l with
    | nil => simp at hx
    | cons b t =>
      unfold chainNodes at hchain
      simp only [Bool.and_eq_true] at hchain
      rw [List.dropLast_cons₂, List.mem_cons] at hx
      rcases hx with h | h
      · subst h
        unfold subEdge at hchain
        rcases List.any_eq_true.mp hchain.1 with ⟨e, he, hc⟩
        simp only [Bool.and_eq_true, decide_eq_true_eq] at hc
        exact List.mem_map.mpr ⟨e, he, hc.1.1⟩
      · exact ih hchain.2 x h

/-- Under acyclicity every hierarchy path is no longer than the edge
    list. -/
theorem chain_length_bound (g : GraphDB) (hac : Acyclic g)
    (c a : String) (xs : List String)
    (hchain : chainNodes g (c :: xs ++ [a]) = true) :
    xs.length + 1 ≤ g.edges.length := by
  have hnd : (c :: xs ++ [a]).Nodup := chainNodes_nodup g hac _ hchain
  have hnd2 : (c :: xs).Nodup := by
    have hsub : (c :: xs ++ [a]).dropLast.Sublist (c :: xs ++ [a]) :=
      List.dropLast_sublist _
    have hdl : (c :: xs ++ [a]).dropLast = c :: xs := by
      rw [show c :: xs ++ [a] = (c :: xs) ++ [a] from rfl, List.dropLast_concat]
    exact hdl ▸ (List.Nodup.sublist hsub hnd)
  have hsubset : (c :: xs) ⊆ g.edges.map (fun e => e.src) := by
    intro x hx
    apply chainNodes_sources g _ hchain
    rw [show c :: xs ++ [a] = (c :: xs) ++ [a] from rfl, List.dropLast_concat]
    exact hx
  have := nodup_subset_length (c :: xs) (g.edges.map (fun e => e.src)) hnd2 hsubset
  simpa using this

/-- Every subclass-of edge target can be read back as a class (the
    well-formedness `get_superclasses` needs to cross a node). -/
def ClassTargets (g : GraphDB) : Prop :=
  ∀ a b, stepRel g a b → ∃ cls, get_class g b = .ok cls

theorem mem_superList_of_edge (g : GraphDB)
    (deeper : String → List OntologyClass) (c : String) (k : OntologyClass) :
    ∀ es (e : GEdge), e ∈ es → e.src = c → e.lbl = SUBCLASS_RELATION →
      get_class g e.dst = .ok k → k ∈ superList g deeper es c false := by
  intro es
  induction es with
  | nil => intro e he; exact absurd he (List.not_mem_nil _)
  | cons e0 rest ih =>
    intro e he hsrc hlbl hok
    rcases List.mem_cons.mp he with h | h
    · subst h
      unfold superList
      rw [if_pos (by simp [hsrc, hlbl])]
      rw [hok]
      simp
    · unfold superList
      split
      · split
        · simp only [List.cons_append, List.mem_cons, List.mem_append]
          right; right
          exact ih e h hsrc hlbl hok
        · exact ih e h hsrc hlbl hok
      · exact ih e h hsrc hlbl hok

theorem mem_superList_deeper (g : GraphDB)
    (deeper : String → List OntologyClass) (c : String) (x : OntologyClass) :
    ∀ es (e : GEdge), e ∈ es → e.src = c → e.lbl = SUBCLASS_RELATION →
      (∃ cls, get_class g e.dst = .ok cls) → x ∈ deeper e.dst →
      x ∈ superList g deeper es c false := by
  intro es
  induction es with
  | nil => intro e he; exact absurd he (List.not_mem_nil _)
  | cons e0 rest ih =>
    intro e he hsrc hlbl hok hx
    rcases List.mem_cons.mp he with h | h
    · subst h
      rcases hok with ⟨cls, hcls⟩
      unfold superList
      rw [if_pos (by simp [hsrc, hlbl])]
      rw [hcls]
      simp only [Bool.false_eq_true, if_neg, List.cons_append, List.mem_cons,
        List.mem_append]
      right; left
      simpa using hx
    · unfold superList
      split
      · split
        · simp only [List.cons_append, List.mem_cons, List.mem_append]
          right; right
          exact ih e h hsrc hlbl hok hx
        · exact ih e h hsrc hlbl hok hx
      · exact ih e h hsrc hlbl hok hx

theorem subEdge_elim (g : GraphDB) (a b : String) (h : stepRel g a b) :
    ∃ e ∈ g.edges, e.src = a ∧ e.dst = b ∧ e.lbl = SUBCLASS_RELATION := by
  unfold stepRel subEdge at h
  rcases List.any_eq_true.mp h with ⟨e, he, hc⟩
  simp only [Bool.and_eq_true, decide_eq_true_eq] at hc
  exact ⟨e, he, hc.1.1, hc.1.2, hc.2⟩

theorem chain_mem_superFrom (g : GraphDB) (hwf : ClassTargets g) :
    ∀ (xs : List String) (c a : String) (fuel : Nat),
      chainNodes g (c :: xs ++ [a]) = true → xs.length + 1 ≤ fuel →
      a ∈ (superFrom g fuel g.edges c false).map (fun k => k.id) := by
  intro xs
  induction xs with
  | nil =>
    intro c a fuel hchain hfuel
    have hstep : stepRel g c a := by
      have h' : chainNodes g [c, a] = true := by simpa using hchain
      unfold chainNodes at h'
      simp only [Bool.and_eq_true] at h'
      exact h'.1
    rcases subEdge_elim g c a hstep with ⟨e, he, h1, h2, h3⟩
    rcases hwf c a hstep with ⟨cls, hcls⟩
    have hid : cls.id = a := get_class_ok_id g a cls hcls
    have hmem : cls ∈ superList g
        (match fuel with
         | 0 => fun _ => []
         | f + 1 => fun t => superFrom g f g.edges t false) g.edges c false := by
      apply mem_superList_of_edge g _ c cls g.edges e he h1 h3
      rw [h2]; exact hcls
    cases fuel with
    | zero => omega
    | succ f =>
      apply List.mem_map.mpr
      refine ⟨cls, ?_, hid⟩
      unfold superFrom
      exact hmem
  | cons p xs' ih =>
    intro c a fuel hchain hfuel
    have hstep : stepRel g c p := by
      simp only [List.cons_append] at hchain
      unfold chainNodes at hchain
      simp only [Bool.and_eq_true] at hchain
      exact hchain.1
    have hrest : chainNodes g (p :: xs' ++ [a]) = true := by
      simp only [List.cons_append] at hchain
      unfold chainNodes at hchain
      simp only [Bool.and_eq_true] at hchain
      simpa using hchain.2
    cases fuel with
    | zero => simp at hfuel
    | succ f =>
      have hin : a ∈ (superFrom g f g.edges p false).map (fun k => k.id) :=
        ih p a f hrest (by simpa using Nat.lt_succ_iff.mp (by simpa using hfuel))
      rcases List.mem_map.mp hin with ⟨k, hk, hkid⟩
      rcases subEdge_elim g c p hstep with ⟨e, he, h1, h2, h3⟩
      apply List.mem_map.mpr
      refine ⟨k, ?_, hkid⟩
      unfold superFrom
      apply mem_superList_deeper g _ c k g.edges e he h1 h3
      · rw [h2]; exact hwf c p hstep
      · rw [h2]; exact hk

/-- C6.  In an acyclic store whose subclass-of edges all point at readable
    class nodes, `get_superclasses(c, direct_only := false)` includes every
    ancestor of `c`: for every hierarchy path from `c` to `a`, some entry
    of the returned list has id `a` (in particular `owl:Thing` whenever it
    is reachable). -/
theorem C6_superclasses_complete (g : GraphDB) (hac : Acyclic g)
    (hwf : ClassTargets g) (c a : String) (xs : List String)
    (hchain : chainNodes g (c :: xs ++ [a]) = true) :
    a ∈ (get_superclasses g c false).map (fun k => k.id) := by
  have hbound := chain_length_bound g hac c a xs hchain
  unfold get_superclasses
  exact chain_mem_superFrom g hwf xs c a (fuelB g) hchain (by unfold fuelB; omega)

/-- The chain store `D ⊑ C ⊑ B ⊑ owl:Thing` (extracted from its service
    construction). -/
def gChain : GraphDB :=
  match buildChain with
  | .ok g => g
  | .error _ => initState

/-- A topological rank witnessing acyclicity of `gChain`. -/
def rankChain (s : String) : Nat :=
  if s = "cls:D" then 0
  else if s = "cls:C" then 1
  else if s = "cls:B" then 2
  else if s = "owl:Thing" then 3
  else 9

theorem gChain_edges : gChain.edges =
    [⟨"cls:B", "owl:Thing", SUBCLASS_RELATION⟩,
     ⟨"cls:C", "cls:B", SUBCLASS_RELATION⟩,
     ⟨"cls:D", "cls:C", SUBCLASS_RELATION⟩,
     ⟨"prop:P", "cls:B", DOMAIN_RELATION⟩] := rfl

theorem gChain_acyclic : Acyclic gChain := by
  apply rank_acyclic gChain rankChain
  intro a b h
  unfold stepRel subEdge at h
  rw [List.any_eq_true] at h
  rcases h with ⟨e, he, hcond⟩
  simp only [Bool.and_eq_true, decide_eq_true_eq] at hcond
  rw [gChain_edges] at he
  simp only [List.mem_cons, List.not_mem_nil, or_false] at he
  rcases he with h1 | h1 | h1 | h1 <;>
    · subst h1
      rcases hcond with ⟨⟨ha, hb⟩, hl⟩
      first
        | (subst ha; subst hb; decide)
        | (exfalso; revert hl; decide)

theorem gChain_targets : ClassTargets gChain := by
  intro a b h
  rcases subEdge_elim gChain a b h with ⟨e, he, h1, h2, h3⟩
  rw [gChain_edges] at he
  simp only [List.mem_cons, List.not_mem_nil, or_false] at he
  rcases he with h4 | h4 | h4 | h4 <;>
    · subst h4
      first
        | (exfalso; revert h3; decide)
        | (rw [← h2]; exact ⟨_, rfl⟩)

/-- C6, witness: in the chain store, the full superclass traversal of
    `cls:D` contains the ancestor `owl:Thing`, reached along the path
    `D → C → B → owl:Thing`. -/
theorem C6_superclasses_complete_witness :
    "owl:Thing" ∈ (get_superclasses gChain "cls:D" false).map (fun k => k.id) :=
  C6_superclasses_complete gChain gChain_acyclic gChain_targets
    "cls:D" "owl:Thing" ["cls:C", "cls:B"] (by rfl)

/-! ## C9 (amended): how `max_hierarchy_depth` is computed -/

theorem get_depth_fuel_invariant (g : GraphDB) :
    ∀ (k f1 f2 : Nat) (c : String),
      (∀ xs a, chainNodes g (c :: xs ++ [a]) = true → xs.length + 1 ≤ k) →
      k < f1 → k < f2 → get_depth g f1 c = get_depth g f2 c := by
  intro k
  induction k with
  | zero =>
    intro f1 f2 c hb h1 h2
    cases f1 with
    | zero => omega
    | succ a1 =>
      cases f2 with
      | zero => omega
      | succ a2 =>
        unfold get_depth
        rcases Bool.eq_false_or_eq_true (get_superclasses g c true).isEmpty with
          hemp | hemp
        · rw [if_pos hemp, if_pos hemp]
        · exfalso
          rcases List.exists_mem_of_ne_nil _ (List.isEmpty_eq_false.mp hemp) with ⟨sc, hsc⟩
          have hstep : subEdge g c sc.id = true := mem_direct_super_step g c sc hsc
          have hch : chainNodes g (c :: [] ++ [sc.id]) = true := by
            have : chainNodes g [c, sc.id] = true := by
              simp [chainNodes, hstep]
            simpa using this
          have := hb [] sc.id hch
          simp at this
  | succ k ih =>
    intro f1 f2 c hb h1 h2
    cases f1 with
    | zero => omega
    | succ a1 =>
      cases f2 with
      | zero => omega
      | succ a2 =>
        unfold get_depth
        rcases Bool.eq_false_or_eq_true (get_superclasses g c true).isEmpty with
          hemp | hemp
        · rw [if_pos hemp, if_pos hemp]
        · have hne : ¬ ((get_superclasses g c true).isEmpty = true) := by simp [hemp]
          rw [if_neg hne, if_neg hne]
          have hmapeq :
              (get_superclasses g c true).map (fun sc => get_depth g a1 sc.id) =
              (get_superclasses g c true).map (fun sc => get_depth g a2 sc.id) := by
            apply List.map_congr_left
            intro sc hsc
            have hstep : subEdge g c sc.id = true := mem_direct_super_step g c sc hsc
            apply ih a1 a2 sc.id
            · intro xs a hch
              have hch2 : chainNodes g (c :: (sc.id :: xs) ++ [a]) = true := by
                simp only [List.cons_append] at hch ⊢
                simp [chainNodes, hstep, hch]
              have := hb (sc.id :: xs) a hch2
              simp at this
              omega
            · omega
            · omega
          rw [hmapeq]

/-- C9, amended.  `get_statistics` computes `max_hierarchy_depth` as the
    maximum, over all classes, of a depth that is 0 for classes with NO
    direct superclass (in practice only the root `owl:Thing`) and otherwise
    `1 + max` over the direct superclasses' depths — so a root-adjacent
    class has depth 1, not 0 as the claim stated. -/
theorem C9_depth_recursion (g : GraphDB) (c : String) (hac : Acyclic g) :
    (get_statistics g).max_hierarchy_depth =
      (get_all_classes g).foldl
        (fun m cl => Nat.max m (get_depth g (fuelB g) cl.id)) 0 ∧
    get_depth g (fuelB g) c =
      (if (get_superclasses g c true).isEmpty then 0
       else 1 + ((get_superclasses g c true).map
         (fun sc => get_depth g (fuelB g) sc.id)).foldl Nat.max 0) := by
  constructor
  · rfl
  · have hunf : get_depth g (fuelB g) c =
        (if (get_superclasses g c true).isEmpty then 0
         else 1 + ((get_superclasses g c true).map
           (fun sc => get_depth g (g.edges.length + 1) sc.id)).foldl Nat.max 0) := rfl
    rw [hunf]
    rcases Bool.eq_false_or_eq_true (get_superclasses g c true).isEmpty with hemp | hemp
    · rw [if_pos hemp, if_pos hemp]
    · have hne : ¬ ((get_superclasses g c true).isEmpty = true) := by simp [hemp]
      rw [if_neg hne, if_neg hne]
      have hmapeq :
          (get_superclasses g c true).map
            (fun sc => get_depth g (g.edges.length + 1) sc.id) =
          (get_superclasses g c true).map
            (fun sc => get_depth g (fuelB g) sc.id) := by
        apply List.map_congr_left
        intro sc hsc
        apply get_depth_fuel_invariant g g.edges.length (g.edges.length + 1) (fuelB g) sc.id
        · intro xs a hch
          exact chain_length_bound g hac sc.id a xs hch
        · omega
        · unfold fuelB; omega
      rw [hmapeq]

/-- C9, amended, witness: concrete evaluation on the chain store at
    `cls:D`. -/
theorem C9_depth_recursion_witness :
    (get_statistics gChain).max_hierarchy_depth =
      (get_all_classes gChain).foldl
        (fun m cl => Nat.max m (get_depth gChain (fuelB gChain) cl.id)) 0 ∧
    get_depth gChain (fuelB gChain) "cls:D" =
      (if (get_superclasses gChain "cls:D" true).isEmpty then 0
       else 1 + ((get_superclasses gChain "cls:D" true).map
         (fun sc => get_depth gChain (fuelB gChain) sc.id)).foldl Nat.max 0) :=
  C9_depth_recursion gChain "cls:D" gChain_acyclic

/-! ## Store lemmas for the round-trip theorems -/

theorem add_edge_nodes (g : GraphDB) (f t l : String) :
    (add_edge g f t l).nodes = g.nodes := by
  unfold add_edge
  split <;> rfl

theorem add_edge_fresh (g : GraphDB) (f t l : String)
    (h : ∀ e ∈ g.edges, ¬(e.src = f ∧ e.dst = t)) :
    add_edge g f t l = { nodes := g.nodes, edges := g.edges ++ [⟨f, t, l⟩] } := by
  unfold add_edge
  rw [if_neg]
  intro hc
  rcases List.any_eq_true.mp hc with ⟨e, he, hm⟩
  simp only [edge_matches, Bool.and_eq_true, decide_eq_true_eq] at hm
  exact h e he hm

theorem node_exists_congr (g1 g2 : GraphDB) (q : String) (h : g1.nodes = g2.nodes) :
    node_exists g1 q = node_exists g2 q := by
  unfold node_exists
  rw [h]

theorem foldl_add_edge_fresh (src lbl : String) :
    ∀ (ps : List String) (h : GraphDB),
      (∀ e ∈ h.edges, ¬(e.src = src ∧ e.dst ∈ ps)) → ps.Nodup →
      ps.foldl (fun acc p => add_edge acc src p lbl) h =
        { nodes := h.nodes, edges := h.edges ++ ps.map (fun p => GEdge.mk src p lbl) } := by
  intro ps
  induction ps with
  | nil =>
    intro h _ _
    cases h
    simp
  | cons p rest ih =>
    intro h hinv hnd
    simp only [List.foldl_cons]
    rw [List.nodup_cons] at hnd
    rw [add_edge_fresh h src p lbl
      (fun e he hc => hinv e he ⟨hc.1, by rw [hc.2]; exact List.mem_cons_self _ _⟩)]
    rw [ih { nodes := h.nodes, edges := h.edges ++ [⟨src, p, lbl⟩] }
      (by
        intro e he hc
        rcases List.mem_append.mp he with h1 | h1
        · exact hinv e h1 ⟨hc.1, List.mem_cons_of_mem _ hc.2⟩
        · simp only [List.mem_singleton] at h1
          subst h1
          exact hnd.1 hc.2)
      hnd.2]
    simp

theorem foldl_add_edge_cond (src lbl : String) :
    ∀ (ps : List String) (h : GraphDB),
      (∀ e ∈ h.edges, ¬(e.src = src ∧ e.dst ∈ ps)) → ps.Nodup →
      ps.foldl (fun acc q => if node_exists acc q then add_edge acc src q lbl else acc) h =
        { nodes := h.nodes,
          edges := h.edges ++
            (ps.filter (fun q => node_exists h q)).map (fun q => GEdge.mk src q lbl) } := by
  intro ps
  induction ps with
  | nil =>
    intro h _ _
    cases h
    simp
  | cons p rest ih =>
    intro h hinv hnd
    simp only [List.foldl_cons]
    rw [List.nodup_cons] at hnd
    rcases Bool.eq_false_or_eq_true (node_exists h p) with hex | hex
    · rw [if_pos hex]
      rw [add_edge_fresh h src p lbl
        (fun e he hc => hinv e he ⟨hc.1, by rw [hc.2]; exact List.mem_cons_self _ _⟩)]
      rw [ih { nodes := h.nodes, edges := h.edges ++ [⟨src, p, lbl⟩] }
        (by
          intro e he hc
          rcases List.mem_append.mp he with h1 | h1
          · exact hinv e h1 ⟨hc.1, List.mem_cons_of_mem _ hc.2⟩
          · simp only [List.mem_singleton] at h1
            subst h1
            exact hnd.1 hc.2)
        hnd.2]
      have hSame : rest.filter
          (fun q => node_exists { nodes := h.nodes, edges := h.edges ++ [⟨src, p, lbl⟩] } q) =
          rest.filter (fun q => node_exists h q) :=
        List.filter_congr (fun q _ => node_exists_congr _ h q rfl)
      have hfilter : (p :: rest).filter (fun q => node_exists h q) =
          p :: rest.filter (fun q => node_exists h q) := by
        rw [List.filter_cons, if_pos (by simp [hex])]
      rw [hSame, hfilter]
      simp
    · rw [if_neg (by simp [hex])]
      rw [ih h (fun e he hc => hinv e he ⟨hc.1, List.mem_cons_of_mem _ hc.2⟩) hnd.2]
      have hfilter : (p :: rest).filter (fun q => node_exists h q) =
          rest.filter (fun q => node_exists h q) := by
        rw [List.filter_cons, if_neg (by simp [hex])]
      rw [hfilter]

theorem dget_append_skip (l1 l2 : NodeData) (k : String)
    (h : ∀ kv ∈ l1, kv.1 ≠ k) : dget (l1 ++ l2) k = dget l2 k := by
  unfold dget
  rw [List.find?_append]
  have hnone : l1.find? (fun p => decide (p.1 = k)) = none :=
    List.find?_eq_none.mpr (fun kv hkv => by simp [h kv hkv])
  rw [hnone]
  rfl

theorem not_exists_forall_ne (g : GraphDB) (nid : String)
    (h : node_exists g nid = false) : ∀ n ∈ g.nodes, n.1 ≠ nid := by
  unfold node_exists at h
  rw [List.any_eq_false] at h
  intro n hn
  have := h n hn
  simpa using this

theorem get_node_data_built (N : List (String × NodeData)) (nid : String)
    (d : NodeData) (E : List GEdge) (h : ∀ n ∈ N, n.1 ≠ nid) :
    get_node_data { nodes := N ++ [(nid, d)], edges := E } nid = d := by
  unfold get_node_data get_node
  simp only
  rw [List.find?_append]
  have hnone : N.find? (fun n => decide (n.1 = nid)) = none :=
    List.find?_eq_none.mpr (fun n hn => by simp [h n hn])
  rw [hnone]
  simp [List.find?_cons_of_pos]

theorem node_exists_built (N : List (String × NodeData)) (nid : String)
    (d : NodeData) (E : List GEdge) :
    node_exists { nodes := N ++ [(nid, d)], edges := E } nid = true := by
  unfold node_exists
  simp only
  rw [List.any_append]
  simp

theorem parents_from_edges_append (E1 E2 : List GEdge) (cid : String) :
    parents_from_edges (E1 ++ E2) cid =
      parents_from_edges E1 cid ++ parents_from_edges E2 cid := by
  unfold parents_from_edges
  exact List.filterMap_append E1 E2 _

theorem parents_from_edges_nil (E : List GEdge) (cid : String)
    (h : ∀ e ∈ E, ¬(e.src = cid ∧ e.lbl = SUBCLASS_RELATION)) :
    parents_from_edges E cid = [] := by
  unfold parents_from_edges
  rw [List.filterMap_eq_nil_iff]
  intro e he
  rw [if_neg]
  intro hc
  simp only [Bool.and_eq_true, decide_eq_true_eq] at hc
  exact h e he hc

theorem parents_from_edges_sub_map (cid : String) (ps : List String) :
    parents_from_edges (ps.map (fun p => GEdge.mk cid p SUBCLASS_RELATION)) cid = ps := by
  unfold parents_from_edges
  rw [List.filterMap_map]
  have : ∀ p ∈ ps, ((fun e : GEdge =>
      if decide (e.src = cid) && decide (e.lbl = SUBCLASS_RELATION)
      then some e.dst else none) ∘ (fun p => GEdge.mk cid p SUBCLASS_RELATION)) p =
        some p := by
    intro p _
    simp [Function.comp]
  calc List.filterMap _ ps = List.filterMap some ps := List.filterMap_congr this
    _ = ps := List.filterMap_some ps

theorem parents_from_edges_other_map (cid lbl : String) (h : lbl ≠ SUBCLASS_RELATION)
    (qs : List String) :
    parents_from_edges (qs.map (fun q => GEdge.mk cid q lbl)) cid = [] := by
  unfold parents_from_edges
  rw [List.filterMap_map, List.filterMap_eq_nil_iff]
  intro q _
  simp [Function.comp, h]

/-- Reading back a class node written by `create_class` over any edge list
    whose subclass extraction gives the effective parents. -/
theorem get_class_built (N : List (String × NodeData)) (E : List GEdge)
    (c : OntologyClass) (hN : ∀ n ∈ N, n.1 ≠ c.id)
    (hres : ∀ kv ∈ c.properties,
      kv.1 ∉ (["label", "node_type", "description", "is_abstract"] : List String))
    (hpar : parents_from_edges E c.id = effective_parents c) :
    get_class { nodes := N ++ [(c.id, class_node_data c)], edges := E } c.id =
      .ok { id := c.id, label := c.label,
            description := some (c.description.getD ""),
            parent_classes := effective_parents c,
            equivalent_classes := [], disjoint_classes := [],
            is_abstract := c.is_abstract, properties := [] } := by
  have hdata : get_node_data
      { nodes := N ++ [(c.id, class_node_data c)], edges := E } c.id =
      class_node_data c := get_node_data_built N c.id _ E hN
  have hskip : ∀ kv ∈ c.properties, kv.1 ≠ "label" ∧ kv.1 ≠ "node_type" ∧
      kv.1 ≠ "description" ∧ kv.1 ≠ "is_abstract" := by
    intro kv hkv
    have := hres kv hkv
    simp only [List.mem_cons, List.not_mem_nil, or_false, not_or] at this
    exact ⟨this.1, this.2.1, this.2.2.1, this.2.2.2⟩
  have hnt : dget (class_node_data c) "node_type" = some (Val.vs CLASS_TYPE) := by
    unfold class_node_data
    rw [dget_append_skip _ _ _ (fun kv hkv => (hskip kv hkv).2.1)]
    rfl
  have hlb : dget (class_node_data c) "label" = some (Val.vs c.label) := by
    unfold class_node_data
    rw [dget_append_skip _ _ _ (fun kv hkv => (hskip kv hkv).1)]
    rfl
  have hds : dget (class_node_data c) "description" =
      some (Val.vs (c.description.getD "")) := by
    unfold class_node_data
    rw [dget_append_skip _ _ _ (fun kv hkv => (hskip kv hkv).2.2.1)]
    rfl
  have hab : dget (class_node_data c) "is_abstract" = some (Val.vb c.is_abstract) := by
    unfold class_node_data
    rw [dget_append_skip _ _ _ (fun kv hkv => (hskip kv hkv).2.2.2)]
    rfl
  unfold get_class
  rw [if_neg (by rw [node_exists_built]; simp)]
  rw [if_neg (by rw [hdata, hnt]; simp)]
  rw [hdata, hlb, hds, hab]
  have hE : ({ nodes := N ++ [(c.id, class_node_data c)], edges := E } : GraphDB).edges
      = E := rfl
  rw [hE, hpar]
  rfl

/-- Intermediate store of `create_class`: after the class node and the
    subclass edges are written. -/
def c7_S1 (g : GraphDB) (c : OntologyClass) : GraphDB :=
  { nodes := g.nodes ++ [(c.id, class_node_data c)],
    edges := g.edges ++
      (effective_parents c).map (fun p => GEdge.mk c.id p SUBCLASS_RELATION) }

/-- Edges written for the equivalent-class declarations. -/
def c7_eE (g : GraphDB) (c : OntologyClass) : List GEdge :=
  (c.equivalent_classes.filter (fun q => node_exists (c7_S1 g c) q)).map
    (fun q => GEdge.mk c.id q "owl:equivalentClass")

def c7_S2 (g : GraphDB) (c : OntologyClass) : GraphDB :=
  { nodes := (c7_S1 g c).nodes, edges := (c7_S1 g c).edges ++ c7_eE g c }

/-- Edges written for the disjoint-class declarations (the final store is `c7_S3`). -/
def c7_dE (g : GraphDB) (c : OntologyClass) : List GEdge :=
  (c.disjoint_classes.filter (fun q => node_exists (c7_S2 g c) q)).map
    (fun q => GEdge.mk c.id q "owl:disjointWith")

def c7_S3 (g : GraphDB) (c : OntologyClass) : GraphDB :=
  { nodes := (c7_S2 g c).nodes, edges := (c7_S2 g c).edges ++ c7_dE g c }

/-- C7, amended.  For a class accepted by `create_class` — fresh id,
    existing parents — whose parent list is duplicate-free, whose free-form
    attributes avoid the reserved keys, and whose equivalent/disjoint
    declarations are duplicate-free and do not name a parent, reading the
    class back returns the same label, the same parent list (`[owl:Thing]`
    when none were supplied) and the stored description `some
    (description or "")` — so a class created WITHOUT a description reads
    back with `some ""`, not `none`. -/
theorem C7_round_trip_amended (g : GraphDB) (c : OntologyClass)
    (hfresh : node_exists g c.id = false)
    (hpar : ∀ p ∈ c.parent_classes, node_exists g p = true)
    (hnd : c.parent_classes.Nodup)
    (hsrc : ∀ e ∈ g.edges, e.src ≠ c.id)
    (hres : ∀ kv ∈ c.properties,
      kv.1 ∉ (["label", "node_type", "description", "is_abstract"] : List String))
    (hed : ∀ q ∈ c.equivalent_classes ++ c.disjoint_classes, q ∉ effective_parents c)
    (hednd : (c.equivalent_classes ++ c.disjoint_classes).Nodup) :
    (create_class g c).bind
        (fun r => (get_class r.1 c.id).map (fun rc => (r.2, rc))) =
      .ok ({ c with parent_classes := effective_parents c },
           { id := c.id, label := c.label,
             description := some (c.description.getD ""),
             parent_classes := effective_parents c,
             equivalent_classes := [], disjoint_classes := [],
             is_abstract := c.is_abstract, properties := [] }) := by
  have hpnd : (effective_parents c).Nodup := by
    unfold effective_parents
    split
    · exact List.nodup_singleton _
    · exact hnd
  have hfind : c.parent_classes.find? (fun p => !(node_exists g p)) = none :=
    List.find?_eq_none.mpr (fun p hp => by simp [hpar p hp])
  have h2 : (effective_parents c).foldl
      (fun h p => add_edge h c.id p SUBCLASS_RELATION)
      (add_node g c.id (class_node_data c)) = c7_S1 g c :=
    foldl_add_edge_fresh c.id SUBCLASS_RELATION (effective_parents c)
      (add_node g c.id (class_node_data c))
      (fun e he hc => hsrc e he hc.1) hpnd
  have h3 : c.equivalent_classes.foldl
      (fun h q => if node_exists h q then add_edge h c.id q "owl:equivalentClass" else h)
      (c7_S1 g c) = c7_S2 g c := by
    apply foldl_add_edge_cond
    · intro e he hc
      rcases List.mem_append.mp he with h | h
      · exact hsrc e h hc.1
      · rcases List.mem_map.mp h with ⟨p, hp, hpe⟩
        have hdst : e.dst = p := by rw [← hpe]
        exact hed e.dst (List.mem_append_left _ hc.2) (hdst ▸ hp)
    · exact hednd.of_append_left
  have h4 : c.disjoint_classes.foldl
      (fun h q => if node_exists h q then add_edge h c.id q "owl:disjointWith" else h)
      (c7_S2 g c) = c7_S3 g c := by
    apply foldl_add_edge_cond
    · intro e he hc
      rcases List.mem_append.mp he with h | h
      · rcases List.mem_append.mp h with h1 | h1
        · exact hsrc e h1 hc.1
        · rcases List.mem_map.mp h1 with ⟨p, hp, hpe⟩
          have hdst : e.dst = p := by rw [← hpe]
          exact hed e.dst (List.mem_append_right _ hc.2) (hdst ▸ hp)
      · rcases List.mem_map.mp h with ⟨q, hq, hqe⟩
        have hdst : e.dst = q := by rw [← hqe]
        have hq2 : q ∈ c.equivalent_classes := (List.mem_filter.mp hq).1
        exact (List.disjoint_of_nodup_append hednd) (hdst ▸ hq2) hc.2
    · exact hednd.of_append_right
  have hcreate : create_class g c =
      .ok (c7_S3 g c, { c with parent_classes := effective_parents c }) := by
    unfold create_class
    rw [if_neg (by simp [hfresh]), hfind]
    dsimp only
    rw [h2, h3, h4]
  have hN : ∀ n ∈ g.nodes, n.1 ≠ c.id := not_exists_forall_ne g c.id hfresh
  have hpar' : parents_from_edges ((c7_S3 g c).edges) c.id = effective_parents c := by
    show parents_from_edges
      ((g.edges ++ (effective_parents c).map (fun p => GEdge.mk c.id p SUBCLASS_RELATION))
        ++ c7_eE g c ++ c7_dE g c) c.id = effective_parents c
    rw [parents_from_edges_append, parents_from_edges_append, parents_from_edges_append]
    rw [parents_from_edges_nil g.edges c.id (fun e he hc => hsrc e he hc.1)]
    rw [parents_from_edges_sub_map c.id (effective_parents c)]
    rw [show parents_from_edges (c7_eE g c) c.id = [] from
      parents_from_edges_other_map c.id "owl:equivalentClass" (by decide) _]
    rw [show parents_from_edges (c7_dE g c) c.id = [] from
      parents_from_edges_other_map c.id "owl:disjointWith" (by decide) _]
    simp
  have hgc : get_class (c7_S3 g c) c.id =
      .ok { id := c.id, label := c.label,
            description := some (c.description.getD ""),
            parent_classes := effective_parents c,
            equivalent_classes := [], disjoint_classes := [],
            is_abstract := c.is_abstract, properties := [] } :=
    get_class_built g.nodes ((c7_S3 g c).edges) c hN hres hpar'
  rw [hcreate]
  simp only [Except.bind]
  rw [hgc]
  rfl

/-- The concrete class used to witness the amended round trip. -/
def cW : OntologyClass :=
  { id := "cls:W", label := "W", description := some "d",
    parent_classes := ["owl:Thing"], equivalent_classes := [],
    disjoint_classes := [], is_abstract := false, properties := [] }

/-- C7, amended, witness: the concrete round trip through a fresh store. -/
theorem C7_round_trip_amended_witness :
    (create_class initState cW).bind
        (fun r => (get_class r.1 "cls:W").map (fun rc => (r.2, rc))) =
      .ok ({ cW with parent_classes := effective_parents cW },
           { id := "cls:W", label := "W", description := some "d",
             parent_classes := effective_parents cW,
             equivalent_classes := [], disjoint_classes := [],
             is_abstract := false, properties := [] }) :=
  C7_round_trip_amended initState cW (by decide) (by decide) (by decide)
    (by decide) (by decide) (by decide) (by decide)

/-! ## C10 (amended): the property domain/range round-trip -/

theorem targets_from_edges_append (E1 E2 : List GEdge) (pid lbl : String) :
    targets_from_edges (E1 ++ E2) pid lbl =
      targets_from_edges E1 pid lbl ++ targets_from_edges E2 pid lbl := by
  unfold targets_from_edges
  exact List.filterMap_append E1 E2 _

theorem targets_from_edges_nil (E : List GEdge) (pid lbl : String)
    (h : ∀ e ∈ E, ¬(e.src = pid ∧ e.lbl = lbl)) :
    targets_from_edges E pid lbl = [] := by
  unfold targets_from_edges
  rw [List.filterMap_eq_nil_iff]
  intro e he
  rw [if_neg]
  intro hc
  simp only [Bool.and_eq_true, decide_eq_true_eq] at hc
  exact h e he hc

theorem targets_from_edges_same_map (pid lbl : String) (qs : List String) :
    targets_from_edges (qs.map (fun q => GEdge.mk pid q lbl)) pid lbl = qs := by
  unfold targets_from_edges
  rw [List.filterMap_map]
  have h : ∀ q ∈ qs, ((fun e : GEdge =>
      if decide (e.src = pid) && decide (e.lbl = lbl) then some e.dst else none) ∘
        (fun q => GEdge.mk pid q lbl)) q = some q := by
    intro q _
    simp [Function.comp]
  calc List.filterMap _ qs = List.filterMap some qs := List.filterMap_congr h
    _ = qs := List.filterMap_some qs

theorem targets_from_edges_other_map (pid lbl lbl' : String) (h : lbl' ≠ lbl)
    (qs : List String) :
    targets_from_edges (qs.map (fun q => GEdge.mk pid q lbl')) pid lbl = [] := by
  unfold targets_from_edges
  rw [List.filterMap_map, List.filterMap_eq_nil_iff]
  intro q _
  simp [Function.comp, h]

theorem PropertyType.parse_value (pt : PropertyType) :
    PropertyType.parse pt.value = some pt := by
  cases pt <;> rfl

/-- The store after `create_property` writes the node and the domain
    edges. -/
def c10_S1 (g : GraphDB) (p : OntologyProperty) : GraphDB :=
  { nodes := g.nodes ++ [(p.id, prop_node_data p)],
    edges := g.edges ++
      (p.domain.filter (fun d =>
        node_exists (add_node g p.id (prop_node_data p)) d)).map
        (fun d => GEdge.mk p.id d DOMAIN_RELATION) }

/-- The store after the range edges as well (the final store). -/
def c10_S2 (g : GraphDB) (p : OntologyProperty) : GraphDB :=
  { nodes := (c10_S1 g p).nodes,
    edges := (c10_S1 g p).edges ++
      (p.range.filter (fun r => node_exists (c10_S1 g p) r)).map
        (fun r => GEdge.mk p.id r RANGE_RELATION) }

theorem node_exists_add_irrelevant (g : GraphDB) (nid q : String) (d : NodeData)
    (h : q ≠ nid) : node_exists (add_node g nid d) q = node_exists g q := by
  unfold node_exists add_node
  simp only
  rw [List.any_append]
  have : ((([(nid, d)] : List (String × NodeData))).any (fun n => decide (n.1 = q))) =
      false := by
    simp [Ne.symm h]
  rw [this]
  simp

/-- C10, amended.  For a fresh property whose domain and range lists are
    duplicate-free, mutually disjoint and do not name the property itself,
    the read-back domain and range are exactly the supplied entries that
    existed as graph nodes at creation time; entries naming datatypes or
    other non-existent ids are silently dropped.  (When an id appears in
    both lists it survives only in range: the (source, target)-keyed edge
    store keeps one edge per pair and range is written last.) -/
theorem C10_domain_range_round_trip (g : GraphDB) (p : OntologyProperty)
    (hfresh : node_exists g p.id = false)
    (hsrc : ∀ e ∈ g.edges, e.src ≠ p.id)
    (hdnd : p.domain.Nodup) (hrnd : p.range.Nodup)
    (hdisj : ∀ x ∈ p.domain, x ∉ p.range)
    (hselfd : p.id ∉ p.domain) (hselfr : p.id ∉ p.range) :
    (create_property g p).bind
        (fun r => (get_property r.1 p.id).map (fun q => (q.domain, q.range))) =
      .ok (p.domain.filter (fun d => node_exists g d),
           p.range.filter (fun r => node_exists g r)) := by
  have hfd : p.domain.filter
      (fun d => node_exists (add_node g p.id (prop_node_data p)) d) =
      p.domain.filter (fun d => node_exists g d) :=
    List.filter_congr (fun d hd =>
      node_exists_add_irrelevant g p.id d _ (fun hx => hselfd (hx ▸ hd)))
  have hfr : p.range.filter (fun r => node_exists (c10_S1 g p) r) =
      p.range.filter (fun r => node_exists g r) := by
    apply List.filter_congr
    intro r hr
    have h1 : node_exists (c10_S1 g p) r =
        node_exists (add_node g p.id (prop_node_data p)) r :=
      node_exists_congr _ _ r rfl
    rw [h1]
    exact node_exists_add_irrelevant g p.id r _ (fun hx => hselfr (hx ▸ hr))
  have h2 : p.domain.foldl
      (fun h d => if node_exists h d then add_edge h p.id d DOMAIN_RELATION else h)
      (add_node g p.id (prop_node_data p)) = c10_S1 g p :=
    foldl_add_edge_cond p.id DOMAIN_RELATION p.domain
      (add_node g p.id (prop_node_data p))
      (fun e he hc => hsrc e he hc.1) hdnd
  have h3 : p.range.foldl
      (fun h r => if node_exists h r then add_edge h p.id r RANGE_RELATION else h)
      (c10_S1 g p) = c10_S2 g p := by
    apply foldl_add_edge_cond
    · intro e he hc
      rcases List.mem_append.mp he with h | h
      · exact hsrc e h hc.1
      · rcases List.mem_map.mp h with ⟨d, hd, hde⟩
        have hdst : e.dst = d := by rw [← hde]
        exact hdisj d (List.mem_filter.mp hd).1 (hdst ▸ hc.2)
    · exact hrnd
  have hcreate : create_property g p = .ok (c10_S2 g p, p) := by
    unfold create_property
    rw [if_neg (by simp [hfresh])]
    dsimp only
    rw [h2, h3]
  have hN : ∀ n ∈ g.nodes, n.1 ≠ p.id := not_exists_forall_ne g p.id hfresh
  have hdata : get_node_data (c10_S2 g p) p.id = prop_node_data p :=
    get_node_data_built g.nodes p.id _ _ hN
  have hdom : targets_from_edges ((c10_S2 g p).edges) p.id DOMAIN_RELATION =
      p.domain.filter (fun d => node_exists g d) := by
    show targets_from_edges (_ ++ _ ++ _) p.id DOMAIN_RELATION = _
    rw [targets_from_edges_append, targets_from_edges_append]
    rw [targets_from_edges_nil g.edges p.id DOMAIN_RELATION
      (fun e he hc => hsrc e he hc.1)]
    rw [targets_from_edges_same_map p.id DOMAIN_RELATION]
    rw [targets_from_edges_other_map p.id DOMAIN_RELATION RANGE_RELATION (by decide)]
    rw [hfd]
    simp
  have hran : targets_from_edges ((c10_S2 g p).edges) p.id RANGE_RELATION =
      p.range.filter (fun r => node_exists g r) := by
    show targets_from_edges (_ ++ _ ++ _) p.id RANGE_RELATION = _
    rw [targets_from_edges_append, targets_from_edges_append]
    rw [targets_from_edges_nil g.edges p.id RANGE_RELATION
      (fun e he hc => hsrc e he hc.1)]
    rw [targets_from_edges_other_map p.id RANGE_RELATION DOMAIN_RELATION (by decide)]
    rw [targets_from_edges_same_map p.id RANGE_RELATION]
    rw [hfr]
    simp
  have hex : node_exists (c10_S2 g p) p.id = true :=
    node_exists_built g.nodes p.id (prop_node_data p) ((c10_S2 g p).edges)
  rw [hcreate]
  simp only [Except.bind]
  unfold get_property
  rw [if_neg (by simp [hex])]
  rw [hdata]
  rw [if_neg (by
    rw [show dget (prop_node_data p) "node_type" = some (Val.vs PROPERTY_TYPE) from rfl]
    simp)]
  have hpt : getStrD (dget (prop_node_data p) "property_type") "object" =
      p.property_type.value := rfl
  rw [hpt, PropertyType.parse_value]
  dsimp only
  rw [hdom, hran]
  rfl

/-- The one-class store (root plus `cls:A`), extracted. -/
def gOne : GraphDB :=
  match buildOneClass with
  | .ok r => r.1
  | .error _ => initState

/-- A property whose domain names the existing class and whose range names
    the datatype `xsd:string`, which is not a graph node. -/
def pW : OntologyProperty := mkP "prop:w" "w" ["cls:A"]

/-- C10, amended, witness: the existing domain entry survives, the
    datatype range entry is silently dropped. -/
theorem C10_domain_range_round_trip_witness :
    (create_property gOne pW).bind
        (fun r => (get_property r.1 "prop:w").map (fun q => (q.domain, q.range))) =
      .ok (["cls:A"], []) :=
  C10_domain_range_round_trip gOne pW (by decide) (by decide) (by decide)
    (by decide) (by decide) (by decide) (by decide)

/-! ## C8 (amended): statistics counts versus service creations -/

/-- One creation call through the service. -/
inductive ServiceOp where
  | cls : OntologyClass → ServiceOp
  | prop : OntologyProperty → ServiceOp
  | inst : OntologyInstance → ServiceOp

def applyOp (g : GraphDB) : ServiceOp → Except Err GraphDB
  | .cls c => (create_class g c).map (fun r => r.1)
  | .prop p => (create_property g p).map (fun r => r.1)
  | .inst i => (create_instance g i).map (fun r => r.1)

/-- A sequence of service creations, each of which must be accepted. -/
def applyOps : GraphDB → List ServiceOp → Except Err GraphDB
  | g, [] => .ok g
  | g, op :: rest =>
    match applyOp g op with
    | .error e => .error e
    | .ok g2 => applyOps g2 rest

def countClassOps : List ServiceOp → Nat
  | [] => 0
  | .cls _ :: rest => countClassOps rest + 1
  | _ :: rest => countClassOps rest

def countPropOps : List ServiceOp → Nat
  | [] => 0
  | .prop _ :: rest => countPropOps rest + 1
  | _ :: rest => countPropOps rest

def countInstOps : List ServiceOp → Nat
  | [] => 0
  | .inst _ :: rest => countInstOps rest + 1
  | _ :: rest => countInstOps rest

def countPropTypeOps (ty : PropertyType) : List ServiceOp → Nat
  | [] => 0
  | .prop p :: rest =>
    countPropTypeOps ty rest + (if p.property_type = ty then 1 else 0)
  | _ :: rest => countPropTypeOps ty rest

/-- The creation avoids the reserved `node_type` key in its free-form
    attribute map (otherwise the written node would masquerade as another
    entity kind). -/
def OpHygienic : ServiceOp → Prop
  | .cls c => ∀ kv ∈ c.properties, kv.1 ≠ "node_type"
  | .prop _ => True
  | .inst i => ∀ kv ∈ i.properties, kv.1 ≠ "node_type"

/-- Number of nodes tagged with the given `node_type`. -/
def count_type (ns : List (String × NodeData)) (ty : String) : Nat :=
  (ns.filter (fun n => decide (dget n.2 "node_type" = some (Val.vs ty)))).length

/-- Number of property nodes storing the given property type. -/
def count_prop_type (ns : List (String × NodeData)) (ty : PropertyType) : Nat :=
  (ns.filter (fun n =>
    decide (dget n.2 "node_type" = some (Val.vs PROPERTY_TYPE)) &&
    decide (dget n.2 "property_type" = some (Val.vs ty.value)))).length

theorem count_type_append (ns1 ns2 : List (String × NodeData)) (ty : String) :
    count_type (ns1 ++ ns2) ty = count_type ns1 ty + count_type ns2 ty := by
  unfold count_type
  rw [List.filter_append, List.length_append]

theorem count_prop_type_append (ns1 ns2 : List (String × NodeData))
    (ty : PropertyType) :
    count_prop_type (ns1 ++ ns2) ty =
      count_prop_type ns1 ty + count_prop_type ns2 ty := by
  unfold count_prop_type
  rw [List.filter_append, List.length_append]

theorem foldl_add_edge_keeps_nodes {α : Type} (f : GraphDB → α → GraphDB)
    (hf : ∀ h x, (f h x).nodes = h.nodes) :
    ∀ (ps : List α) (h : GraphDB), (ps.foldl f h).nodes = h.nodes := by
  intro ps
  induction ps with
  | nil => intro h; rfl
  | cons p rest ih =>
    intro h
    simp only [List.foldl_cons]
    rw [ih (f h p), hf h p]

theorem create_class_ok_shape (g : GraphDB) (c : OntologyClass)
    (r : GraphDB × OntologyClass) (h : create_class g c = .ok r) :
    r.1.nodes = g.nodes ++ [(c.id, class_node_data c)] ∧
    node_exists g c.id = false := by
  unfold create_class at h
  split at h
  · exact absurd h (by simp)
  · rename_i hguard
    have hfresh : node_exists g c.id = false := by
      rcases Bool.eq_false_or_eq_true (node_exists g c.id) with h1 | h1
      · exact absurd h1 hguard
      · exact h1
    split at h
    · exact absurd h (by simp)
    · refine ⟨?_, hfresh⟩
      injection h with h1
      rw [← h1]
      simp only
      rw [foldl_add_edge_keeps_nodes _ (fun h x => by split <;> simp [add_edge_nodes])]
      rw [foldl_add_edge_keeps_nodes _ (fun h x => by split <;> simp [add_edge_nodes])]
      rw [foldl_add_edge_keeps_nodes _ (fun h x => add_edge_nodes h c.id x SUBCLASS_RELATION)]
      rfl

theorem create_property_ok_shape (g : GraphDB) (p : OntologyProperty)
    (r : GraphDB × OntologyProperty) (h : create_property g p = .ok r) :
    r.1.nodes = g.nodes ++ [(p.id, prop_node_data p)] ∧
    node_exists g p.id = false := by
  unfold create_property at h
  split at h
  · exact absurd h (by simp)
  · rename_i hguard
    have hfresh : node_exists g p.id = false := by
      rcases Bool.eq_false_or_eq_true (node_exists g p.id) with h1 | h1
      · exact absurd h1 hguard
      · exact h1
    refine ⟨?_, hfresh⟩
    injection h with h1
    rw [← h1]
    simp only
    rw [foldl_add_edge_keeps_nodes _ (fun h x => by split <;> simp [add_edge_nodes])]
    rw [foldl_add_edge_keeps_nodes _ (fun h x => by split <;> simp [add_edge_nodes])]
    rfl

theorem create_instance_ok_shape (g : GraphDB) (i : OntologyInstance)
    (r : GraphDB × OntologyInstance) (h : create_instance g i = .ok r) :
    r.1.nodes = g.nodes ++ [(i.id, inst_node_data i)] ∧
    node_exists g i.id = false := by
  unfold create_instance at h
  split at h
  · exact absurd h (by simp)
  · rename_i hguard
    have hfresh : node_exists g i.id = false := by
      rcases Bool.eq_false_or_eq_true (node_exists g i.id) with h1 | h1
      · exact absurd h1 hguard
      · exact h1
    split at h
    · exact absurd h (by simp)
    · refine ⟨?_, hfresh⟩
      injection h with h1
      rw [← h1]
      simp only
      rw [foldl_add_edge_keeps_nodes _ (fun h x => add_edge_nodes h i.id x TYPE_RELATION)]
      rfl

theorem class_node_data_type (c : OntologyClass)
    (h : ∀ kv ∈ c.properties, kv.1 ≠ "node_type") :
    dget (class_node_data c) "node_type" = some (Val.vs CLASS_TYPE) := by
  unfold class_node_data
  rw [dget_append_skip _ _ _ h]
  rfl

theorem inst_node_data_type (i : OntologyInstance)
    (h : ∀ kv ∈ i.properties, kv.1 ≠ "node_type") :
    dget (inst_node_data i) "node_type" = some (Val.vs INSTANCE_TYPE) := by
  unfold inst_node_data
  rw [dget_append_skip _ _ _ h]
  rfl

theorem PropertyType.value_inj (a b : PropertyType) :
    (a.value = b.value) ↔ a = b := by
  cases a <;> cases b <;> simp [PropertyType.value]

theorem count_type_single_class (c : OntologyClass) (ty : String)
    (h : ∀ kv ∈ c.properties, kv.1 ≠ "node_type") :
    count_type [(c.id, class_node_data c)] ty =
      (if CLASS_TYPE = ty then 1 else 0) := by
  unfold count_type
  rw [show List.filter (fun n => decide (dget n.2 "node_type" = some (Val.vs ty)))
        [(c.id, class_node_data c)] =
      if decide (dget (class_node_data c) "node_type" = some (Val.vs ty)) = true
      then [(c.id, class_node_data c)] else [] from List.filter_cons]
  rw [class_node_data_type c h]
  by_cases hty : CLASS_TYPE = ty
  · rw [if_pos (by simp [hty]), if_pos hty]
    rfl
  · rw [if_neg (by simp [hty]), if_neg hty]
    rfl

theorem count_type_single_prop (p : OntologyProperty) (ty : String) :
    count_type [(p.id, prop_node_data p)] ty =
      (if PROPERTY_TYPE = ty then 1 else 0) := by
  unfold count_type
  rw [show List.filter (fun n => decide (dget n.2 "node_type" = some (Val.vs ty)))
        [(p.id, prop_node_data p)] =
      if decide (dget (prop_node_data p) "node_type" = some (Val.vs ty)) = true
      then [(p.id, prop_node_data p)] else [] from List.filter_cons]
  rw [show dget (prop_node_data p) "node_type" = some (Val.vs PROPERTY_TYPE) from rfl]
  by_cases hty : PROPERTY_TYPE = ty
  · rw [if_pos (by simp [hty]), if_pos hty]
    rfl
  · rw [if_neg (by simp [hty]), if_neg hty]
    rfl

theorem count_type_single_inst (i : OntologyInstance) (ty : String)
    (h : ∀ kv ∈ i.properties, kv.1 ≠ "node_type") :
    count_type [(i.id, inst_node_data i)] ty =
      (if INSTANCE_TYPE = ty then 1 else 0) := by
  unfold count_type
  rw [show List.filter (fun n => decide (dget n.2 "node_type" = some (Val.vs ty)))
        [(i.id, inst_node_data i)] =
      if decide (dget (inst_node_data i) "node_type" = some (Val.vs ty)) = true
      then [(i.id, inst_node_data i)] else [] from List.filter_cons]
  rw [inst_node_data_type i h]
  by_cases hty : INSTANCE_TYPE = ty
  · rw [if_pos (by simp [hty]), if_pos hty]
    rfl
  · rw [if_neg (by simp [hty]), if_neg hty]
    rfl

theorem count_prop_type_single_class (c : OntologyClass) (ty : PropertyType)
    (h : ∀ kv ∈ c.properties, kv.1 ≠ "node_type") :
    count_prop_type [(c.id, class_node_data c)] ty = 0 := by
  unfold count_prop_type
  rw [show List.filter _ [(c.id, class_node_data c)] =
      if (decide (dget (class_node_data c) "node_type" = some (Val.vs PROPERTY_TYPE)) &&
          decide (dget (class_node_data c) "property_type" = some (Val.vs ty.value))) = true
      then [(c.id, class_node_data c)] else [] from List.filter_cons]
  rw [class_node_data_type c h]
  rw [if_neg (by simp [CLASS_TYPE, PROPERTY_TYPE])]
  rfl

theorem count_prop_type_single_inst (i : OntologyInstance) (ty : PropertyType)
    (h : ∀ kv ∈ i.properties, kv.1 ≠ "node_type") :
    count_prop_type [(i.id, inst_node_data i)] ty = 0 := by
  unfold count_prop_type
  rw [show List.filter _ [(i.id, inst_node_data i)] =
      if (decide (dget (inst_node_data i) "node_type" = some (Val.vs PROPERTY_TYPE)) &&
          decide (dget (inst_node_data i) "property_type" = some (Val.vs ty.value))) = true
      then [(i.id, inst_node_data i)] else [] from List.filter_cons]
  rw [inst_node_data_type i h]
  rw [if_neg (by simp [INSTANCE_TYPE, PROPERTY_TYPE])]
  rfl

theorem count_prop_type_single_prop (p : OntologyProperty) (ty : PropertyType) :
    count_prop_type [(p.id, prop_node_data p)] ty =
      (if p.property_type = ty then 1 else 0) := by
  unfold count_prop_type
  rw [show List.filter _ [(p.id, prop_node_data p)] =
      if (decide (dget (prop_node_data p) "node_type" = some (Val.vs PROPERTY_TYPE)) &&
          decide (dget (prop_node_data p) "property_type" = some (Val.vs ty.value))) = true
      then [(p.id, prop_node_data p)] else [] from List.filter_cons]
  rw [show dget (prop_node_data p) "node_type" = some (Val.vs PROPERTY_TYPE) from rfl]
  rw [show dget (prop_node_data p) "property_type" =
      some (Val.vs p.property_type.value) from rfl]
  by_cases hty : p.property_type = ty
  · rw [if_pos (by simp [hty]), if_pos hty]
    rfl
  · rw [if_neg (by
      simp only [Bool.and_eq_true, decide_eq_true_eq, Option.some.injEq, Val.vs.injEq]
      intro hc
      exact hty ((PropertyType.value_inj _ _).mp hc.2)), if_neg hty]
    rfl

theorem count_type_class_cls (c : OntologyClass)
    (h : ∀ kv ∈ c.properties, kv.1 ≠ "node_type") :
    count_type [(c.id, class_node_data c)] CLASS_TYPE = 1 := by
  rw [count_type_single_class c CLASS_TYPE h]
  rfl

theorem count_type_class_prp (c : OntologyClass)
    (h : ∀ kv ∈ c.properties, kv.1 ≠ "node_type") :
    count_type [(c.id, class_node_data c)] PROPERTY_TYPE = 0 := by
  rw [count_type_single_class c PROPERTY_TYPE h]
  rfl

theorem count_type_class_ins (c : OntologyClass)
    (h : ∀ kv ∈ c.properties, kv.1 ≠ "node_type") :
    count_type [(c.id, class_node_data c)] INSTANCE_TYPE = 0 := by
  rw [count_type_single_class c INSTANCE_TYPE h]
  rfl

theorem count_type_prop_cls (p : OntologyProperty) :
    count_type [(p.id, prop_node_data p)] CLASS_TYPE = 0 := by
  rw [count_type_single_prop p CLASS_TYPE]
  rfl

theorem count_type_prop_prp (p : OntologyProperty) :
    count_type [(p.id, prop_node_data p)] PROPERTY_TYPE = 1 := by
  rw [count_type_single_prop p PROPERTY_TYPE]
  rfl

theorem count_type_prop_ins (p : OntologyProperty) :
    count_type [(p.id, prop_node_data p)] INSTANCE_TYPE = 0 := by
  rw [count_type_single_prop p INSTANCE_TYPE]
  rfl

theorem count_type_inst_cls (i : OntologyInstance)
    (h : ∀ kv ∈ i.properties, kv.1 ≠ "node_type") :
    count_type [(i.id, inst_node_data i)] CLASS_TYPE = 0 := by
  rw [count_type_single_inst i CLASS_TYPE h]
  rfl

theorem count_type_inst_prp (i : OntologyInstance)
    (h : ∀ kv ∈ i.properties, kv.1 ≠ "node_type") :
    count_type [(i.id, inst_node_data i)] PROPERTY_TYPE = 0 := by
  rw [count_type_single_inst i PROPERTY_TYPE h]
  rfl

theorem count_type_inst_ins (i : OntologyInstance)
    (h : ∀ kv ∈ i.properties, kv.1 ≠ "node_type") :
    count_type [(i.id, inst_node_data i)] INSTANCE_TYPE = 1 := by
  rw [count_type_single_inst i INSTANCE_TYPE h]
  rfl

theorem applyOps_counts :
    ∀ (ops : List ServiceOp) (g g' : GraphDB),
      applyOps g ops = .ok g' → (∀ op ∈ ops, OpHygienic op) →
      count_type g'.nodes CLASS_TYPE =
        count_type g.nodes CLASS_TYPE + countClassOps ops ∧
      count_type g'.nodes PROPERTY_TYPE =
        count_type g.nodes PROPERTY_TYPE + countPropOps ops ∧
      count_type g'.nodes INSTANCE_TYPE =
        count_type g.nodes INSTANCE_TYPE + countInstOps ops ∧
      ∀ ty : PropertyType, count_prop_type g'.nodes ty =
        count_prop_type g.nodes ty + countPropTypeOps ty ops := by
  intro ops
  induction ops with
  | nil =>
    intro g g' happ _
    unfold applyOps at happ
    injection happ with h1
    subst h1
    exact ⟨rfl, rfl, rfl, fun ty => rfl⟩
  | cons op rest ih =>
    intro g g' happ hhyg
    unfold applyOps at happ
    cases hstep : applyOp g op with
    | error e => rw [hstep] at happ; exact absurd happ (by simp)
    | ok g2 =>
      rw [hstep] at happ
      have hrec := ih g2 g' happ (fun o ho => hhyg o (List.mem_cons_of_mem _ ho))
      have hop := hhyg op (List.mem_cons_self _ _)
      cases op with
      | cls c =>
        simp only [applyOp] at hstep
        cases hc : create_class g c with
        | error e => rw [hc] at hstep; exact absurd hstep (by simp [Except.map])
        | ok r =>
          rw [hc] at hstep
          simp only [Except.map] at hstep
          injection hstep with hstep
          have hshape := (create_class_ok_shape g c r hc).1
          have hg2 : g2.nodes = g.nodes ++ [(c.id, class_node_data c)] := by
            rw [← hstep]; exact hshape
          refine ⟨?_, ?_, ?_, ?_⟩
          · rw [hrec.1, hg2, count_type_append, count_type_class_cls c hop]
            simp only [countClassOps]
            omega
          · rw [hrec.2.1, hg2, count_type_append, count_type_class_prp c hop]
            simp only [countPropOps]
            omega
          · rw [hrec.2.2.1, hg2, count_type_append, count_type_class_ins c hop]
            simp only [countInstOps]
            omega
          · intro ty
            rw [hrec.2.2.2 ty, hg2, count_prop_type_append,
              count_prop_type_single_class c ty hop]
            simp only [countPropTypeOps]
            omega
      | prop p =>
        simp only [applyOp] at hstep
        cases hc : create_property g p with
        | error e => rw [hc] at hstep; exact absurd hstep (by simp [Except.map])
        | ok r =>
          rw [hc] at hstep
          simp only [Except.map] at hstep
          injection hstep with hstep
          have hshape := (create_property_ok_shape g p r hc).1
          have hg2 : g2.nodes = g.nodes ++ [(p.id, prop_node_data p)] := by
            rw [← hstep]; exact hshape
          refine ⟨?_, ?_, ?_, ?_⟩
          · rw [hrec.1, hg2, count_type_append, count_type_prop_cls p]
            simp only [countClassOps]
            omega
          · rw [hrec.2.1, hg2, count_type_append, count_type_prop_prp p]
            simp only [countPropOps]
            omega
          · rw [hrec.2.2.1, hg2, count_type_append, count_type_prop_ins p]
            simp only [countInstOps]
            omega
          · intro ty
            rw [hrec.2.2.2 ty, hg2, count_prop_type_append,
              count_prop_type_single_prop p ty]
            simp only [countPropTypeOps]
            omega
      | inst i =>
        simp only [applyOp] at hstep
        cases hc : create_instance g i with
        | error e => rw [hc] at hstep; exact absurd hstep (by simp [Except.map])
        | ok r =>
          rw [hc] at hstep
          simp only [Except.map] at hstep
          injection hstep with hstep
          have hshape := (create_instance_ok_shape g i r hc).1
          have hg2 : g2.nodes = g.nodes ++ [(i.id, inst_node_data i)] := by
            rw [← hstep]; exact hshape
          refine ⟨?_, ?_, ?_, ?_⟩
          · rw [hrec.1, hg2, count_type_append, count_type_inst_cls i hop]
            simp only [countClassOps]
            omega
          · rw [hrec.2.1, hg2, count_type_append, count_type_inst_prp i hop]
            simp only [countPropOps]
            omega
          · rw [hrec.2.2.1, hg2, count_type_append, count_type_inst_ins i hop]
            simp only [countInstOps]
            omega
          · intro ty
            rw [hrec.2.2.2 ty, hg2, count_prop_type_append,
              count_prop_type_single_inst i ty hop]
            simp only [countPropTypeOps]
            omega

/-- Service-built stores: unique node ids, and every property node stores a
    parseable property type. -/
def GoodStore (g : GraphDB) : Prop :=
  (g.nodes.map Prod.fst).Nodup ∧
  ∀ n ∈ g.nodes, dget n.2 "node_type" = some (Val.vs PROPERTY_TYPE) →
    ∃ ty : PropertyType, dget n.2 "property_type" = some (Val.vs ty.value)

theorem good_initState : GoodStore initState := by
  constructor
  · exact List.nodup_singleton _
  · intro n hn hty
    simp only [initState, List.mem_singleton] at hn
    subst hn
    exact absurd hty (by decide)

theorem find?_mem_nodup (ns : List (String × NodeData)) (nid : String) (d : NodeData)
    (hnd : (ns.map Prod.fst).Nodup) (hmem : (nid, d) ∈ ns) :
    ns.find? (fun n => decide (n.1 = nid)) = some (nid, d) := by
  induction ns with
  | nil => cases hmem
  | cons x rest ih =>
    rw [List.map_cons, List.nodup_cons] at hnd
    rcases List.mem_cons.mp hmem with h | h
    · rw [← h]
      rw [List.find?_cons_of_pos _ (by simp)]
    · rw [List.find?_cons_of_neg _ (by
        simp only [decide_eq_true_eq]
        intro hx
        apply hnd.1
        rw [hx]
        exact List.mem_map_of_mem Prod.fst h)]
      exact ih hnd.2 h

theorem get_node_data_of_mem (g : GraphDB) (nid : String) (d : NodeData)
    (hnd : (g.nodes.map Prod.fst).Nodup) (hmem : (nid, d) ∈ g.nodes) :
    get_node_data g nid = d := by
  unfold get_node_data get_node
  rw [find?_mem_nodup g.nodes nid d hnd hmem]
  rfl

theorem node_exists_of_mem (g : GraphDB) (n : String × NodeData)
    (h : n ∈ g.nodes) : node_exists g n.1 = true := by
  unfold node_exists
  rw [List.any_eq_true]
  exact ⟨n, h, by simp⟩

theorem get_class_ok_of_node (g : GraphDB) (n : String × NodeData)
    (hnd : (g.nodes.map Prod.fst).Nodup) (hmem : n ∈ g.nodes)
    (hty : dget n.2 "node_type" = some (Val.vs CLASS_TYPE)) :
    ∃ cls, get_class g n.1 = .ok cls := by
  have hdata : get_node_data g n.1 = n.2 :=
    get_node_data_of_mem g n.1 n.2 hnd hmem
  unfold get_class
  rw [if_neg (by simp [node_exists_of_mem g n hmem])]
  rw [if_neg (by rw [hdata, hty]; simp)]
  exact ⟨_, rfl⟩

theorem get_property_ok_of_node (g : GraphDB) (n : String × NodeData)
    (hnd : (g.nodes.map Prod.fst).Nodup) (hmem : n ∈ g.nodes) (ty : PropertyType)
    (hty : dget n.2 "node_type" = some (Val.vs PROPERTY_TYPE))
    (hpt : dget n.2 "property_type" = some (Val.vs ty.value)) :
    ∃ q, get_property g n.1 = .ok q ∧ q.property_type = ty := by
  have hdata : get_node_data g n.1 = n.2 :=
    get_node_data_of_mem g n.1 n.2 hnd hmem
  unfold get_property
  rw [if_neg (by simp [node_exists_of_mem g n hmem])]
  rw [if_neg (by rw [hdata, hty]; simp)]
  rw [show getStrD (dget (get_node_data g n.1) "property_type") "object" = ty.value
    from by rw [hdata, hpt]; rfl]
  rw [PropertyType.parse_value]
  exact ⟨_, rfl, rfl⟩

theorem classes_length_aux (g : GraphDB) (hnd : (g.nodes.map Prod.fst).Nodup) :
    ∀ ns : List (String × NodeData), (∀ n ∈ ns, n ∈ g.nodes) →
      (ns.filterMap (fun n =>
        if dget n.2 "node_type" = some (Val.vs CLASS_TYPE)
        then (get_class g n.1).toOption else none)).length =
      count_type ns CLASS_TYPE := by
  intro ns
  induction ns with
  | nil => intro _; rfl
  | cons n rest ih =>
    intro hsub
    have htail := ih (fun m hm => hsub m (List.mem_cons_of_mem _ hm))
    rw [List.filterMap_cons]
    unfold count_type
    rw [List.filter_cons]
    by_cases hty : dget n.2 "node_type" = some (Val.vs CLASS_TYPE)
    · rcases get_class_ok_of_node g n hnd (hsub n (List.mem_cons_self _ _)) hty
        with ⟨cls, hcls⟩
      rw [if_pos hty, hcls]
      rw [show (Except.ok cls : Except Err OntologyClass).toOption = some cls from rfl]
      rw [if_pos (by simp [hty])]
      dsimp only
      simp only [List.length_cons]
      unfold count_type at htail
      rw [htail]
    · rw [if_neg hty, if_neg (by simp [hty])]
      unfold count_type at htail
      rw [htail]

theorem props_length_aux (g : GraphDB) (hgood : GoodStore g) :
    ∀ ns : List (String × NodeData), (∀ n ∈ ns, n ∈ g.nodes) →
      (ns.filterMap (fun n =>
        if dget n.2 "node_type" = some (Val.vs PROPERTY_TYPE)
        then (get_property g n.1).toOption else none)).length =
      count_type ns PROPERTY_TYPE := by
  intro ns
  induction ns with
  | nil => intro _; rfl
  | cons n rest ih =>
    intro hsub
    have htail := ih (fun m hm => hsub m (List.mem_cons_of_mem _ hm))
    rw [List.filterMap_cons]
    unfold count_type
    rw [List.filter_cons]
    by_cases hty : dget n.2 "node_type" = some (Val.vs PROPERTY_TYPE)
    · rcases hgood.2 n (hsub n (List.mem_cons_self _ _)) hty with ⟨tyn, hpt⟩
      rcases get_property_ok_of_node g n hgood.1 (hsub n (List.mem_cons_self _ _))
        tyn hty hpt with ⟨q, hq, _⟩
      rw [if_pos hty, hq]
      rw [show (Except.ok q : Except Err OntologyProperty).toOption = some q from rfl]
      rw [if_pos (by simp [hty])]
      dsimp only
      simp only [List.length_cons]
      unfold count_type at htail
      rw [htail]
    · rw [if_neg hty, if_neg (by simp [hty])]
      unfold count_type at htail
      rw [htail]

theorem props_type_aux (g : GraphDB) (hgood : GoodStore g) (ty : PropertyType) :
    ∀ ns : List (String × NodeData), (∀ n ∈ ns, n ∈ g.nodes) →
      ((ns.filterMap (fun n =>
        if dget n.2 "node_type" = some (Val.vs PROPERTY_TYPE)
        then (get_property g n.1).toOption else none)).filter
          (fun q => decide (q.property_type = ty))).length =
      count_prop_type ns ty := by
  intro ns
  induction ns with
  | nil => intro _; rfl
  | cons n rest ih =>
    intro hsub
    have htail := ih (fun m hm => hsub m (List.mem_cons_of_mem _ hm))
    rw [List.filterMap_cons]
    unfold count_prop_type
    rw [List.filter_cons]
    by_cases hty : dget n.2 "node_type" = some (Val.vs PROPERTY_TYPE)
    · rcases hgood.2 n (hsub n (List.mem_cons_self _ _)) hty with ⟨tyn, hpt⟩
      rcases get_property_ok_of_node g n hgood.1 (hsub n (List.mem_cons_self _ _))
        tyn hty hpt with ⟨q, hq, hqt⟩
      rw [if_pos hty, hq]
      rw [show (Except.ok q : Except Err OntologyProperty).toOption = some q from rfl]
      dsimp only
      rw [List.filter_cons]
      by_cases hsame : tyn = ty
      · rw [if_pos (by simp [hqt, hsame])]
        rw [if_pos (by
          simp only [Bool.and_eq_true, decide_eq_true_eq]
          exact ⟨hty, by rw [hpt, hsame]⟩)]
        simp only [List.length_cons]
        unfold count_prop_type at htail
        rw [htail]
      · rw [if_neg (by simp [hqt, hsame])]
        rw [if_neg (by
          simp only [Bool.and_eq_true, decide_eq_true_eq, Option.some.injEq,
            Val.vs.injEq, not_and]
          intro _ hc
          rw [hpt] at hc
          simp only [Option.some.injEq, Val.vs.injEq] at hc
          exact hsame ((PropertyType.value_inj _ _).mp hc))]
        unfold count_prop_type at htail
        rw [htail]
    · rw [if_neg hty]
      rw [if_neg (by
        simp only [Bool.and_eq_true, decide_eq_true_eq, not_and]
        intro hc
        exact absurd hc hty)]
      unfold count_prop_type at htail
      rw [htail]

theorem good_extend (g g2 : GraphDB) (nid : String) (d : NodeData)
    (hn : g2.nodes = g.nodes ++ [(nid, d)])
    (hfresh : node_exists g nid = false) (hgood : GoodStore g)
    (hd : dget d "node_type" = some (Val.vs PROPERTY_TYPE) →
      ∃ ty : PropertyType, dget d "property_type" = some (Val.vs ty.value)) :
    GoodStore g2 := by
  have hne := not_exists_forall_ne g nid hfresh
  constructor
  · rw [hn, List.map_append]
    apply List.Nodup.append hgood.1 (List.nodup_singleton _)
    intro a ha hb
    simp only [List.map_cons, List.map_nil, List.mem_singleton] at hb
    subst hb
    rcases List.mem_map.mp ha with ⟨n, hmem, hfst⟩
    exact hne n hmem hfst
  · intro n hmem hty
    rw [hn] at hmem
    rcases List.mem_append.mp hmem with h | h
    · exact hgood.2 n h hty
    · simp only [List.mem_singleton] at h
      subst h
      exact hd hty

theorem applyOps_good :
    ∀ (ops : List ServiceOp) (g g' : GraphDB),
      applyOps g ops = .ok g' → (∀ op ∈ ops, OpHygienic op) →
      GoodStore g → GoodStore g' := by
  intro ops
  induction ops with
  | nil =>
    intro g g' happ _ hgood
    unfold applyOps at happ
    injection happ with h1
    subst h1
    exact hgood
  | cons op rest ih =>
    intro g g' happ hhyg hgood
    unfold applyOps at happ
    cases hstep : applyOp g op with
    | error e => rw [hstep] at happ; exact absurd happ (by simp)
    | ok g2 =>
      rw [hstep] at happ
      have hop := hhyg op (List.mem_cons_self _ _)
      have hgood2 : GoodStore g2 := by
        cases op with
        | cls c =>
          simp only [applyOp] at hstep
          cases hc : create_class g c with
          | error e => rw [hc] at hstep; exact absurd hstep (by simp [Except.map])
          | ok r =>
            rw [hc] at hstep
            simp only [Except.map] at hstep
            injection hstep with hstep
            have hshape := create_class_ok_shape g c r hc
            refine good_extend g g2 c.id (class_node_data c)
              (by rw [← hstep]; exact hshape.1) hshape.2 hgood ?_
            intro hcontra
            rw [class_node_data_type c hop] at hcontra
            exact absurd hcontra (by decide)
        | prop p =>
          simp only [applyOp] at hstep
          cases hc : create_property g p with
          | error e => rw [hc] at hstep; exact absurd hstep (by simp [Except.map])
          | ok r =>
            rw [hc] at hstep
            simp only [Except.map] at hstep
            injection hstep with hstep
            have hshape := create_property_ok_shape g p r hc
            refine good_extend g g2 p.id (prop_node_data p)
              (by rw [← hstep]; exact hshape.1) hshape.2 hgood ?_
            intro _
            exact ⟨p.property_type, rfl⟩
        | inst i =>
          simp only [applyOp] at hstep
          cases hc : create_instance g i with
          | error e => rw [hc] at hstep; exact absurd hstep (by simp [Except.map])
          | ok r =>
            rw [hc] at hstep
            simp only [Except.map] at hstep
            injection hstep with hstep
            have hshape := create_instance_ok_shape g i r hc
            refine good_extend g g2 i.id (inst_node_data i)
              (by rw [← hstep]; exact hshape.1) hshape.2 hgood ?_
            intro hcontra
            rw [inst_node_data_type i hop] at hcontra
            exact absurd hcontra (by decide)
      exact ih g2 g' happ (fun o ho => hhyg o (List.mem_cons_of_mem _ ho)) hgood2

/-- C8, amended.  After creating exactly N classes, M properties and K
    instances through the service (each creation accepted, free-form
    attributes avoiding the reserved `node_type` key), `get_statistics`
    reports `total_classes = N + 1` — the pre-initialized root `owl:Thing`
    is counted too — while `total_properties = M` with the per-type splits
    matching the creations, and `total_instances = K`. -/
theorem C8_statistics_counts (ops : List ServiceOp) (g : GraphDB)
    (happ : applyOps initState ops = .ok g)
    (hhyg : ∀ op ∈ ops, OpHygienic op) :
    (get_statistics g).total_classes = countClassOps ops + 1 ∧
    (get_statistics g).total_properties = countPropOps ops ∧
    (get_statistics g).total_instances = countInstOps ops ∧
    (get_statistics g).total_object_properties =
      countPropTypeOps PropertyType.object ops ∧
    (get_statistics g).total_data_properties =
      countPropTypeOps PropertyType.data ops ∧
    (get_statistics g).total_annotation_properties =
      countPropTypeOps PropertyType.annot ops := by
  have hgood := applyOps_good ops initState g happ hhyg good_initState
  have hcounts := applyOps_counts ops initState g happ hhyg
  refine ⟨?_, ?_, ?_, ?_, ?_, ?_⟩
  · rw [show (get_statistics g).total_classes = (get_all_classes g).length from rfl]
    have hb : (get_all_classes g).length = count_type g.nodes CLASS_TYPE :=
      classes_length_aux g hgood.1 g.nodes (fun n h => h)
    rw [hb, hcounts.1]
    rw [show count_type initState.nodes CLASS_TYPE = 1 from rfl]
    omega
  · rw [show (get_statistics g).total_properties = (get_all_properties g).length from rfl]
    have hb : (get_all_properties g).length = count_type g.nodes PROPERTY_TYPE :=
      props_length_aux g hgood g.nodes (fun n h => h)
    rw [hb, hcounts.2.1]
    rw [show count_type initState.nodes PROPERTY_TYPE = 0 from rfl]
    omega
  · rw [show (get_statistics g).total_instances =
      count_type g.nodes INSTANCE_TYPE from rfl]
    rw [hcounts.2.2.1]
    rw [show count_type initState.nodes INSTANCE_TYPE = 0 from rfl]
    omega
  · rw [show (get_statistics g).total_object_properties =
      ((get_all_properties g).filter
        (fun p => decide (p.property_type = PropertyType.object))).length from rfl]
    have hb : ((get_all_properties g).filter
        (fun p => decide (p.property_type = PropertyType.object))).length =
        count_prop_type g.nodes PropertyType.object :=
      props_type_aux g hgood PropertyType.object g.nodes (fun n h => h)
    rw [hb, hcounts.2.2.2 PropertyType.object]
    rw [show count_prop_type initState.nodes PropertyType.object = 0 from rfl]
    omega
  · rw [show (get_statistics g).total_data_properties =
      ((get_all_properties g).filter
        (fun p => decide (p.property_type = PropertyType.data))).length from rfl]
    have hb : ((get_all_properties g).filter
        (fun p => decide (p.property_type = PropertyType.data))).length =
        count_prop_type g.nodes PropertyType.data :=
      props_type_aux g hgood PropertyType.data g.nodes (fun n h => h)
    rw [hb, hcounts.2.2.2 PropertyType.data]
    rw [show count_prop_type initState.nodes PropertyType.data = 0 from rfl]
    omega
  · rw [show (get_statistics g).total_annotation_properties =
      ((get_all_properties g).filter
        (fun p => decide (p.property_type = PropertyType.annot))).length from rfl]
    have hb : ((get_all_properties g).filter
        (fun p => decide (p.property_type = PropertyType.annot))).length =
        count_prop_type g.nodes PropertyType.annot :=
      props_type_aux g hgood PropertyType.annot g.nodes (fun n h => h)
    rw [hb, hcounts.2.2.2 PropertyType.annot]
    rw [show count_prop_type initState.nodes PropertyType.annot = 0 from rfl]
    omega

/-- One class, one data property and one instance created in sequence. -/
def opsW : List ServiceOp :=
  [.cls (mkC "cls:A" "A" []),
   .prop (mkP "prop:p" "p" ["cls:A"]),
   .inst { id := "inst:i", label := "i", class_ids := ["cls:A"], properties := [] }]

/-- The store those three creations produce. -/
def gOps : GraphDB :=
  match applyOps initState opsW with
  | .ok g => g
  | .error _ => initState

/-- C8, amended, witness: after one class, one data property and one
    instance, statistics report 2 classes (the root included), 1 property
    (1 data, 0 object, 0 annotation) and 1 instance. -/
theorem C8_statistics_counts_witness :
    (get_statistics gOps).total_classes = 2 ∧
    (get_statistics gOps).total_properties = 1 ∧
    (get_statistics gOps).total_instances = 1 ∧
    (get_statistics gOps).total_object_properties = 0 ∧
    (get_statistics gOps).total_data_properties = 1 ∧
    (get_statistics gOps).total_annotation_properties = 0 := by
  have hhyg : ∀ op ∈ opsW, OpHygienic op := by
    intro op hop
    simp only [opsW, List.mem_cons, List.not_mem_nil, or_false] at hop
    rcases hop with h | h | h <;> subst h
    · intro kv hkv; exact absurd hkv (by simp [mkC])
    · trivial
    · intro kv hkv; exact absurd hkv (by simp)
  exact C8_statistics_counts opsW gOps rfl hhyg
